import Mathlib

/-!
Shallow embedding of `src/market_maker_keeper/oasis_market_maker_keeper.py`
(OasisMarketMakerKeeper): band validation, order classification and the
three-phase reconciliation algorithm (`synchronize_orders`).

Amounts and prices (`Wad` values in the source) are modelled as rationals.
The band value classes `BuyBand`/`SellBand` come from the external module
`keeper.band`, which is not part of the repository sources; their operations
(`includes`, `avg_price`, `excessive_orders`) are modelled from the spec and
marked as such below.  Everything else is translated from the source file.
-/

namespace MMK

/-- Token identifiers.  The keeper trades the W-ETH (`gem`) / SAI (`sai`)
pair; the venue's book may hold orders in arbitrary other tokens. -/
inductive Token where
  | sai : Token
  | gem : Token
  | other : ℕ → Token
deriving DecidableEq

/-- An OasisDEX order (`pymaker.oasis.Order`), as observed by the keeper. -/
structure Order where
  order_id : ℕ
  owner : ℕ
  sell_which_token : Token
  sell_how_much : ℚ
  buy_which_token : Token
  buy_how_much : ℚ
deriving DecidableEq

/-- A band configuration entry (fields shared by `BuyBand` and `SellBand`). -/
structure Band where
  min_margin : ℚ
  avg_margin : ℚ
  max_margin : ℚ
  min_amount : ℚ
  avg_amount : ℚ
  max_amount : ℚ
  dust_cutoff : ℚ
deriving DecidableEq

/-- Which side of the market a band (or classified order) belongs to. -/
inductive Side where
  | buy : Side
  | sell : Side
deriving DecidableEq

/-- A place-intent: the arguments of `self.otc.make(...)`. -/
structure Place where
  have_token : Token
  have_amount : ℚ
  want_token : Token
  want_amount : ℚ
deriving DecidableEq

/-- The observable outcome of one `synchronize_orders` tick:
whether `self.terminate(...)` was requested, which orders were cancelled,
and which place-intents were emitted. -/
structure SyncResult where
  terminate : Bool
  cancels : List Order
  places : List Place
deriving DecidableEq

/-- Modelled from the spec: margin application from §3 of the spec —
`price = p * (1 - margin)` for buy bands and `price = p * (1 + margin)`
for sell bands (the band classes live in the external `keeper.band`). -/
def applyMargin : Side → ℚ → ℚ → ℚ
  | Side.buy, p, m => p * (1 - m)
  | Side.sell, p, m => p * (1 + m)

/-- Modelled from the spec: an order's derived price (§3) —
`buy_amount / sell_amount` equivalent per side: a buy order sells SAI for
gem so its SAI/gem price is `sell_how_much / buy_how_much`; a sell order
sells gem for SAI so its price is `buy_how_much / sell_how_much`. -/
def orderPrice : Side → Order → ℚ
  | Side.buy, o => o.sell_how_much / o.buy_how_much
  | Side.sell, o => o.buy_how_much / o.sell_how_much

/-- Lower end of a band's derived price range at reference price `p`. -/
def lowPrice : Side → ℚ → Band → ℚ
  | Side.buy, p, b => applyMargin Side.buy p b.max_margin
  | Side.sell, p, b => applyMargin Side.sell p b.min_margin

/-- Upper end of a band's derived price range at reference price `p`. -/
def highPrice : Side → ℚ → Band → ℚ
  | Side.buy, p, b => applyMargin Side.buy p b.min_margin
  | Side.sell, p, b => applyMargin Side.sell p b.max_margin

/-- Modelled from the spec: `Band.includes(order, reference_price)` from
§4.1 of the spec — true iff the order's price falls within the band's
derived price range (the band classes live in the external `keeper.band`). -/
def Band.includes (b : Band) (s : Side) (o : Order) (p : ℚ) : Bool :=
  decide (lowPrice s p b ≤ orderPrice s o ∧ orderPrice s o ≤ highPrice s p b)

/-- Modelled from the spec: `Band.avg_price(reference_price)` from §4.1 —
the placement price derived from `avg_margin`. -/
def Band.avg_price (b : Band) (s : Side) (p : ℚ) : ℚ :=
  applyMargin s p b.avg_margin

/-- `total_amount` (source line 265-267): sum of `sell_how_much`. -/
def total_amount (orders : List Order) : ℚ :=
  (orders.map Order.sell_how_much).sum

/-- The subset of a side's orders currently included in a band (the list
comprehensions of source lines 239 and 254). -/
def in_band_orders (s : Side) (p : ℚ) (sideOrders : List Order) (b : Band) :
    List Order :=
  sideOrders.filter fun o => b.includes s o p

/-- Modelled from the spec: `Band.excessive_orders(orders, target_price)`
(Phase 1, spec §4.4) — if the combined size of the orders currently inside
the band exceeds `max_amount`, ALL orders in the band are marked for
cancellation (the band classes live in the external `keeper.band`). -/
def Band.excessive_orders (b : Band) (s : Side) (orders : List Order) (p : ℚ) :
    List Order :=
  if b.max_amount < total_amount (in_band_orders s p orders b) then
    in_band_orders s p orders b
  else []

/-- `two_bands_overlap` (source lines 156-157). -/
def two_bands_overlap (b1 b2 : Band) : Bool :=
  decide (b1.min_margin < b2.max_margin ∧ b2.min_margin < b1.max_margin)

/-- `bands_overlap` (source lines 155-163): for some band, the number of
bands of the list overlapping it (itself included) exceeds one. -/
def bands_overlap (bands : List Band) : Bool :=
  bands.any fun b1 =>
    decide (1 < (bands.filter fun b2 => two_bands_overlap b1 b2).length)

/-- `band_configuration` (source lines 144-153), with configuration parsing
(external `ReloadableConfig`/`BuyBand`/`SellBand` construction) abstracted
into the two input lists.  The boolean records whether `self.terminate(...)`
was called. -/
def band_configuration (buyCfg sellCfg : List Band) :
    Bool × List Band × List Band :=
  if bands_overlap buyCfg || bands_overlap sellCfg then (true, [], [])
  else (false, buyCfg, sellCfg)

/-- `our_orders` (source lines 165-166): book orders owned by the keeper. -/
def our_orders (addr : ℕ) (book : List Order) : List Order :=
  book.filter fun o => decide (o.owner = addr)

/-- `our_sell_orders` (source lines 168-170). -/
def our_sell_orders (ours : List Order) : List Order :=
  ours.filter fun o =>
    decide (o.buy_which_token = Token.sai ∧ o.sell_which_token = Token.gem)

/-- `our_buy_orders` (source lines 172-174). -/
def our_buy_orders (ours : List Order) : List Order :=
  ours.filter fun o =>
    decide (o.buy_which_token = Token.gem ∧ o.sell_which_token = Token.sai)

/-- `outside_orders` (source lines 198-206): own classified orders included
in no band of their side. -/
def outside_orders (ours : List Order) (buyBands sellBands : List Band)
    (p : ℚ) : List Order :=
  ((our_buy_orders ours).filter fun o =>
      !(buyBands.any fun b => b.includes Side.buy o p)) ++
  ((our_sell_orders ours).filter fun o =>
      !(sellBands.any fun b => b.includes Side.sell o p))

/-- `excessive_buy_orders` (source lines 223-227). -/
def excessive_buy_orders (ours : List Order) (buyBands : List Band) (p : ℚ) :
    List Order :=
  buyBands.flatMap fun b => b.excessive_orders Side.buy (our_buy_orders ours) p

/-- `excessive_sell_orders` (source lines 217-221). -/
def excessive_sell_orders (ours : List Order) (sellBands : List Band) (p : ℚ) :
    List Order :=
  sellBands.flatMap fun b =>
    b.excessive_orders Side.sell (our_sell_orders ours) p

/-- Round a rational to the nearest integer, ties to even (the behavior of
Python's built-in `round`, applied by the source to `Wad` prices). -/
def roundHalfEven (x : ℚ) : ℤ :=
  if x - ⌊x⌋ < 1 / 2 then ⌊x⌋
  else if (1 : ℚ) / 2 < x - ⌊x⌋ then ⌊x⌋ + 1
  else if ⌊x⌋ % 2 = 0 then ⌊x⌋ else ⌊x⌋ + 1

/-- `round(price, self.round_places)`: round to `k` decimal places. -/
def roundTo (k : ℕ) (x : ℚ) : ℚ :=
  (roundHalfEven (x * 10 ^ k) : ℚ) / 10 ^ k

/-- The asset a top-up order offers: SAI for buy bands, gem for sell bands. -/
def haveTokenOf : Side → Token
  | Side.buy => Token.sai
  | Side.sell => Token.gem

/-- The asset a top-up order asks for. -/
def wantTokenOf : Side → Token
  | Side.buy => Token.gem
  | Side.sell => Token.sai

/-- `want_amount` computation: `have * price` for sell bands (line 245),
`have / price` for buy bands (line 260). -/
def wantAmountOf (s : Side) (haveAmt r : ℚ) : ℚ :=
  match s with
  | Side.sell => haveAmt * r
  | Side.buy => haveAmt / r

/-- One loop iteration of `top_up_sell_bands` / `top_up_buy_bands`
(source lines 238-248 and 253-263): given the side's classified orders and
the running balance, the optional place-intent for one band and the new
running balance. -/
def top_up_step (s : Side) (k : ℕ) (p : ℚ) (sideOrders : List Order)
    (b : Band) (bal : ℚ) : Option Place × ℚ :=
  let total := total_amount (in_band_orders s p sideOrders b)
  if total < b.min_amount then
    let haveAmt := min (b.avg_amount - total) bal
    if b.dust_cutoff ≤ haveAmt ∧ 0 < haveAmt then
      let r := roundTo k (b.avg_price s p)
      let wantAmt := wantAmountOf s haveAmt r
      if 0 < wantAmt then
        (some ⟨haveTokenOf s, haveAmt, wantTokenOf s, wantAmt⟩, bal - haveAmt)
      else (none, bal - haveAmt)
    else (none, bal)
  else (none, bal)

/-- The band loop of `top_up_sell_bands` / `top_up_buy_bands`: bands are
processed once each, left to right, threading the running balance. -/
def topUpBands (s : Side) (k : ℕ) (p : ℚ) (sideOrders : List Order) :
    List Band → ℚ → List Place × ℚ
  | [], bal => ([], bal)
  | b :: bs, bal =>
    let st := top_up_step s k p sideOrders b bal
    let rest := topUpBands s k p sideOrders bs st.2
    (st.1.toList ++ rest.1, rest.2)

/-- `top_up_sell_bands` (source lines 235-248): place-intents of the
sell-side top-up pass starting from the keeper's gem balance. -/
def top_up_sell_bands (ours : List Order) (sellBands : List Band) (p : ℚ)
    (gemBalance : ℚ) (k : ℕ) : List Place :=
  (topUpBands Side.sell k p (our_sell_orders ours) sellBands gemBalance).1

/-- `top_up_buy_bands` (source lines 250-263): place-intents of the
buy-side top-up pass starting from the keeper's SAI balance. -/
def top_up_buy_bands (ours : List Order) (buyBands : List Band) (p : ℚ)
    (saiBalance : ℚ) (k : ℕ) : List Place :=
  (topUpBands Side.buy k p (our_buy_orders ours) buyBands saiBalance).1

/-- `synchronize_orders` (source lines 176-196), one tick as a pure
function.  `saiBal`/`gemBal` are the balances `balance_of` reports when the
top-up phase reads them (i.e. after this tick's cancellations resolved).
The re-observed `our_orders()` of line 192 is the previous own-order set
minus the cancelled orders (no intervening external change). -/
def synchronize_orders (ethBal minEth : ℚ) (addr : ℕ) (book : List Order)
    (price : Option ℚ) (buyCfg sellCfg : List Band) (saiBal gemBal : ℚ)
    (k : ℕ) : SyncResult :=
  if ethBal < minEth then
    { terminate := true, cancels := our_orders addr book, places := [] }
  else
    let cfg := band_configuration buyCfg sellCfg
    let ours := our_orders addr book
    match price with
    | none => { terminate := cfg.1, cancels := ours, places := [] }
    | some p =>
      let cancels := excessive_buy_orders ours cfg.2.1 p ++
        excessive_sell_orders ours cfg.2.2 p ++
        outside_orders ours cfg.2.1 cfg.2.2 p
      let ours2 := ours.filter fun o => decide (o ∉ cancels)
      { terminate := cfg.1
        cancels := cancels
        places := top_up_buy_bands ours2 cfg.2.1 p saiBal k ++
          top_up_sell_bands ours2 cfg.2.2 p gemBal k }

/-- The order `self.otc.make(...)` creates on the venue for a place-intent
(the venue-assigned order id is irrelevant to the algorithm). -/
def placedOrder (addr : ℕ) (pl : Place) : Order :=
  { order_id := 0
    owner := addr
    sell_which_token := pl.have_token
    sell_how_much := pl.have_amount
    buy_which_token := pl.want_token
    buy_how_much := pl.want_amount }

/-- The order book after a tick's intents are applied by the venue with no
other interference: cancelled orders disappear, placed orders appear. -/
def next_book (addr : ℕ) (book : List Order) (res : SyncResult) :
    List Order :=
  (book.filter fun o => decide (o ∉ res.cancels)) ++
    res.places.map (placedOrder addr)

/-- Sum of the `have_amount` fields of a list of place-intents. -/
def sumHaves (pls : List Place) : ℚ :=
  (pls.map Place.have_amount).sum

/-- Sum of the `have_amount` fields of the place-intents offering token `t`
(the amount the venue escrows from the keeper's `t` balance). -/
def sumHavesTok (t : Token) (pls : List Place) : ℚ :=
  sumHaves (pls.filter fun pl => decide (pl.have_token = t))

/-- Two consecutive `synchronize_orders` ticks with no external change:
the book evolves only by the first tick's cancels and places, balances only
by the escrow of the first tick's placements; configuration, reference
price and ETH balance are unchanged.  Returns the second tick's result. -/
def run_twice (ethBal minEth : ℚ) (addr : ℕ) (book : List Order) (p : ℚ)
    (buyCfg sellCfg : List Band) (saiBal gemBal : ℚ) (k : ℕ) : SyncResult :=
  let r1 := synchronize_orders ethBal minEth addr book (some p) buyCfg
    sellCfg saiBal gemBal k
  synchronize_orders ethBal minEth addr (next_book addr book r1) (some p)
    buyCfg sellCfg (saiBal - sumHavesTok Token.sai r1.places)
    (gemBal - sumHavesTok Token.gem r1.places) k

/-- Geometric side conditions on one band at reference price `p` and
rounding precision `k`: its derived price range is positive and the
rounded placement price `round(avg_price(p), k)` still lies inside the
band's own price range. -/
def bandGeomOK (s : Side) (k : ℕ) (p : ℚ) (b : Band) : Prop :=
  0 < lowPrice s p b ∧
  lowPrice s p b ≤ roundTo k (b.avg_price s p) ∧
  roundTo k (b.avg_price s p) ≤ highPrice s p b

/-- The derived price ranges of the bands of one side are pairwise strictly
disjoint (a strict form of the validated no-overlap invariant). -/
def bandsDisjoint (s : Side) (p : ℚ) (bs : List Band) : Prop :=
  bs.Pairwise fun b1 b2 =>
    highPrice s p b1 < lowPrice s p b2 ∨ highPrice s p b2 < lowPrice s p b1

/-- The construction-time amount invariant of a band (spec §3):
`0 ≤ min_amount ≤ avg_amount ≤ max_amount`. -/
def bandAmountsOK (b : Band) : Prop :=
  0 ≤ b.min_amount ∧ b.min_amount ≤ b.avg_amount ∧
    b.avg_amount ≤ b.max_amount

end MMK

namespace MMK

/-! ### Generic list helpers -/

theorem two_le_length_filter {α : Type} (P : α → Bool) :
    ∀ (l : List α) (i j : ℕ) (hi : i < l.length) (hj : j < l.length),
      i ≠ j → P (l.get ⟨i, hi⟩) = true → P (l.get ⟨j, hj⟩) = true →
      2 ≤ (l.filter P).length := by
  intro l
  induction l with
  | nil => intro i j hi _ _ _ _; simp at hi
  | cons a t ih =>
    intro i j hi hj hij hPi hPj
    match i, j with
    | 0, 0 => exact absurd rfl hij
    | 0, j' + 1 =>
      have hPa : P a = true := hPi
      have hmem : t.get ⟨j', by simpa using hj⟩ ∈ t.filter P :=
        List.mem_filter.mpr ⟨List.get_mem _ _ _, hPj⟩
      have h1 : 1 ≤ (t.filter P).length :=
        List.length_pos.mpr (List.ne_nil_of_mem hmem)
      rw [List.filter_cons_of_pos hPa]
      simpa using h1
    | i' + 1, 0 =>
      have hPa : P a = true := hPj
      have hmem : t.get ⟨i', by simpa using hi⟩ ∈ t.filter P :=
        List.mem_filter.mpr ⟨List.get_mem _ _ _, hPi⟩
      have h1 : 1 ≤ (t.filter P).length :=
        List.length_pos.mpr (List.ne_nil_of_mem hmem)
      rw [List.filter_cons_of_pos hPa]
      simpa using h1
    | i' + 1, j' + 1 =>
      have h2 := ih i' j' (by simpa using hi) (by simpa using hj)
        (by omega) hPi hPj
      by_cases hPa : P a = true
      · rw [List.filter_cons_of_pos hPa]; simp; omega
      · rw [List.filter_cons_of_neg (by simpa using hPa)]; exact h2

theorem exists_pair_of_two_le_length_filter {α : Type} (P : α → Bool) :
    ∀ (l : List α), 2 ≤ (l.filter P).length →
      ∃ (i j : ℕ) (hi : i < l.length) (hj : j < l.length),
        i ≠ j ∧ P (l.get ⟨i, hi⟩) = true ∧ P (l.get ⟨j, hj⟩) = true := by
  intro l
  induction l with
  | nil => intro h; simp at h
  | cons a t ih =>
    intro h
    by_cases hPa : P a = true
    · rw [List.filter_cons_of_pos hPa] at h
      simp only [List.length_cons] at h
      have h1 : 0 < (t.filter P).length := by omega
      obtain ⟨x, hx⟩ := List.exists_mem_of_length_pos h1
      have hx' := List.mem_filter.mp hx
      obtain ⟨j, hj⟩ := List.mem_iff_get.mp hx'.1
      refine ⟨0, j.1 + 1, by simp, by simp [j.2], by omega, hPa, ?_⟩
      have : (a :: t).get ⟨j.1 + 1, by simp [j.2]⟩ = t.get j := by
        simp
      rw [this, hj]
      exact hx'.2
    · rw [List.filter_cons_of_neg (by simpa using hPa)] at h
      obtain ⟨i, j, hi, hj, hij, hPi, hPj⟩ := ih h
      exact ⟨i + 1, j + 1, by simpa using hi, by simpa using hj,
        by omega, hPi, hPj⟩

end MMK

namespace MMK

/-! ### C2: completeness and soundness of the overlap detector -/

/-- C2: for every list of same-side bands, `bands_overlap` returns true if
and only if two distinct entries of the list have intersecting margin
ranges (`band1.min_margin < band2.max_margin` and
`band2.min_margin < band1.max_margin`): even one pairwise overlap between
two distinct bands invalidates the side, although the code merely counts,
per band, how many list entries (itself included) overlap it. -/
theorem C2_bands_overlap_iff (bands : List Band) :
    bands_overlap bands = true ↔
      ∃ (i j : ℕ) (hi : i < bands.length) (hj : j < bands.length),
        i ≠ j ∧
        two_bands_overlap (bands.get ⟨i, hi⟩) (bands.get ⟨j, hj⟩) = true := by
  constructor
  · intro h
    obtain ⟨b1, hb1, hcnt⟩ := List.any_eq_true.mp h
    have hcnt' : 2 ≤ (bands.filter fun b2 => two_bands_overlap b1 b2).length := by
      have := of_decide_eq_true hcnt
      omega
    obtain ⟨i, j, hi, hj, hij, hPi, hPj⟩ :=
      exists_pair_of_two_le_length_filter _ bands hcnt'
    obtain ⟨i0, hi0⟩ := List.mem_iff_get.mp hb1
    by_cases hii : i = i0.1
    · -- then j differs from b1's position; pair (i0, j)
      refine ⟨i0.1, j, i0.2, hj, by omega, ?_⟩
      rw [show bands.get ⟨i0.1, i0.2⟩ = b1 from by
        rw [← hi0]]
      exact hPj
    · refine ⟨i0.1, i, i0.2, hi, by omega, ?_⟩
      rw [show bands.get ⟨i0.1, i0.2⟩ = b1 from by
        rw [← hi0]]
      exact hPi
  · rintro ⟨i, j, hi, hj, hij, hov⟩
    have hprop := of_decide_eq_true hov
    set b1 := bands.get ⟨i, hi⟩ with hb1
    set b2 := bands.get ⟨j, hj⟩ with hb2
    by_cases hself : b1.min_margin < b1.max_margin
    · refine List.any_eq_true.mpr ⟨b1, List.get_mem _ _ _, decide_eq_true ?_⟩
      have h2 : 2 ≤ (bands.filter fun b2 => two_bands_overlap b1 b2).length := by
        refine two_le_length_filter _ bands i j hi hj hij ?_ ?_
        · exact decide_eq_true ⟨hself, hself⟩
        · exact hov
      omega
    · have hself2 : b2.min_margin < b2.max_margin := by
        push_neg at hself
        linarith [hprop.1, hprop.2]
      refine List.any_eq_true.mpr ⟨b2, List.get_mem _ _ _, decide_eq_true ?_⟩
      have h2 : 2 ≤ (bands.filter fun b => two_bands_overlap b2 b).length := by
        refine two_le_length_filter _ bands j i hj hi (by omega) ?_ ?_
        · exact decide_eq_true ⟨hself2, hself2⟩
        · exact decide_eq_true ⟨hprop.2, hprop.1⟩
      omega

/-! ### C3: fail-closed configuration -/

/-- C3: whenever the buy-side band list overlaps or the sell-side band list
overlaps, `band_configuration` returns an empty band list for both sides —
never a partially applied configuration. -/
theorem C3_fail_closed (buyCfg sellCfg : List Band)
    (h : bands_overlap buyCfg = true ∨ bands_overlap sellCfg = true) :
    (band_configuration buyCfg sellCfg).2.1 = [] ∧
    (band_configuration buyCfg sellCfg).2.2 = [] := by
  unfold band_configuration
  rcases h with h | h <;> simp [h]

/-- Witness for C3 at a concrete overlapping configuration. -/
theorem C3_fail_closed_witness :
    (bands_overlap [⟨0, 0, 1, 1, 2, 3, 0⟩, ⟨0, 0, 1, 1, 2, 3, 0⟩] = true ∨
      bands_overlap ([] : List Band) = true) ∧
    (band_configuration [⟨0, 0, 1, 1, 2, 3, 0⟩, ⟨0, 0, 1, 1, 2, 3, 0⟩]
        []).2.1 = [] ∧
    (band_configuration [⟨0, 0, 1, 1, 2, 3, 0⟩, ⟨0, 0, 1, 1, 2, 3, 0⟩]
        []).2.2 = [] := by
  have hov : bands_overlap [(⟨0, 0, 1, 1, 2, 3, 0⟩ : Band),
      ⟨0, 0, 1, 1, 2, 3, 0⟩] = true := by
    norm_num [bands_overlap, two_bands_overlap]
  exact ⟨Or.inl hov, C3_fail_closed _ _ (Or.inl hov)⟩

end MMK

namespace MMK

/-! ### C4: price-unavailable fail-safe -/

/-- C4: on a tick where the price feed returns no price,
`synchronize_orders` cancels all of the keeper's own open orders and emits
zero place-intents — no excessive-order or outside-band evaluation and no
top-up happens for that tick. -/
theorem C4_price_unavailable (ethBal minEth : ℚ) (addr : ℕ)
    (book : List Order) (buyCfg sellCfg : List Band) (saiBal gemBal : ℚ)
    (k : ℕ) :
    (synchronize_orders ethBal minEth addr book none buyCfg sellCfg saiBal
        gemBal k).cancels = our_orders addr book ∧
    (synchronize_orders ethBal minEth addr book none buyCfg sellCfg saiBal
        gemBal k).places = [] := by
  unfold synchronize_orders
  split <;> simp

/-! ### C10: implicit ETH-balance guard -/

/-- C10: on a tick where the keeper's ETH balance is strictly below
`min_eth_balance`, `synchronize_orders` requests termination, cancels all
of the keeper's own open orders and returns immediately: the result is the
same for every band configuration, price-feed value and token balance, so
neither the configuration nor the price feed is consulted and no
place-intent is emitted. -/
theorem C10_eth_guard (ethBal minEth : ℚ) (addr : ℕ) (book : List Order)
    (price : Option ℚ) (buyCfg sellCfg : List Band) (saiBal gemBal : ℚ)
    (k : ℕ) (h : ethBal < minEth) :
    synchronize_orders ethBal minEth addr book price buyCfg sellCfg saiBal
        gemBal k =
      { terminate := true, cancels := our_orders addr book, places := [] } := by
  unfold synchronize_orders
  rw [if_pos h]

/-- Witness for C10 at concrete inputs. -/
theorem C10_eth_guard_witness :
    (0 : ℚ) < 1 ∧
    synchronize_orders 0 1 7 [] (some 5) [] [] 3 4 2 =
      { terminate := true, cancels := our_orders 7 [], places := [] } :=
  ⟨by norm_num, C10_eth_guard 0 1 7 [] (some 5) [] [] 3 4 2 (by norm_num)⟩

/-! ### C9: overlap is in fact process-fatal in the code -/

/-- C9 counterexample: on an overlapping configuration the code calls
`self.terminate(...)` ("Bands in the config file overlap. Terminating the
keeper."), so the condition is process-fatal, refuting the claim that no
condition in the reconciliation core terminates the process. -/
theorem C9_counterexample :
    (band_configuration [⟨0, 0, 1, 1, 2, 3, 0⟩, ⟨0, 0, 1, 1, 2, 3, 0⟩]
      []).1 = true := by
  norm_num [band_configuration, bands_overlap, two_bands_overlap]

/-- C9 amended: an overlapping-bands configuration makes the tick fail
closed — both band sets empty, all classified own orders cancelled, zero
place-intents — but in addition `band_configuration` requests keeper
termination (`self.terminate`), so the condition is process-fatal rather
than merely recoverable on the next reload. -/
theorem C9_amended (ethBal minEth : ℚ) (addr : ℕ) (book : List Order)
    (p : ℚ) (buyCfg sellCfg : List Band) (saiBal gemBal : ℚ) (k : ℕ)
    (hover : bands_overlap buyCfg = true ∨ bands_overlap sellCfg = true)
    (heth : minEth ≤ ethBal) :
    (synchronize_orders ethBal minEth addr book (some p) buyCfg sellCfg
        saiBal gemBal k).terminate = true ∧
    (synchronize_orders ethBal minEth addr book (some p) buyCfg sellCfg
        saiBal gemBal k).places = [] ∧
    (synchronize_orders ethBal minEth addr book (some p) buyCfg sellCfg
        saiBal gemBal k).cancels =
      our_buy_orders (our_orders addr book) ++
        our_sell_orders (our_orders addr book) := by
  have hcfg : band_configuration buyCfg sellCfg = (true, [], []) := by
    unfold band_configuration
    rcases hover with h | h <;> simp [h]
  unfold synchronize_orders
  rw [if_neg (not_lt.mpr heth), hcfg]
  refine ⟨rfl, ?_, ?_⟩
  · simp [top_up_buy_bands, top_up_sell_bands, topUpBands]
  · simp [excessive_buy_orders, excessive_sell_orders, outside_orders]

/-- Witness for C9 amended at a concrete overlapping configuration. -/
theorem C9_amended_witness :
    (bands_overlap [⟨0, 0, 1, 1, 2, 3, 0⟩, ⟨0, 0, 1, 1, 2, 3, 0⟩] = true ∨
      bands_overlap ([] : List Band) = true) ∧ (0 : ℚ) ≤ 1 ∧
    (synchronize_orders 1 0 7 [] (some 5)
        [⟨0, 0, 1, 1, 2, 3, 0⟩, ⟨0, 0, 1, 1, 2, 3, 0⟩] [] 3 4 2).terminate =
      true := by
  have hov : bands_overlap [(⟨0, 0, 1, 1, 2, 3, 0⟩ : Band),
      ⟨0, 0, 1, 1, 2, 3, 0⟩] = true := by
    norm_num [bands_overlap, two_bands_overlap]
  exact ⟨Or.inl hov, by norm_num,
    (C9_amended 1 0 7 [] 5 _ [] 3 4 2 (Or.inl hov) (by norm_num)).1⟩

/-! ### C8: the classifiers are disjoint but not complementary -/

/-- C8 counterexample: an own order that is not on the SAI/gem pair (here
one offering gem for gem) belongs to neither `our_buy_orders` nor
`our_sell_orders`, refuting the claim that every own order belongs to
exactly one of the two sets. -/
theorem C8_counterexample :
    our_buy_orders [⟨0, 1, Token.gem, 1, Token.gem, 1⟩] = [] ∧
    our_sell_orders [⟨0, 1, Token.gem, 1, Token.gem, 1⟩] = [] := by
  constructor <;> simp [our_buy_orders, our_sell_orders]

/-- C8 amended: `our_buy_orders` and `our_sell_orders` are always disjoint,
and every own order actually trading the SAI/gem pair belongs to exactly
one of them (buying gem with SAI → buy set; selling gem for SAI → sell
set); own orders on any other token pair belong to neither set, so
`our_sell_orders` is the complement of `our_buy_orders` only within the
pair-trading own orders, not within the full own-order list. -/
theorem C8_amended (ours : List Order) (o : Order) (ho : o ∈ ours) :
    (o.buy_which_token = Token.gem ∧ o.sell_which_token = Token.sai →
      o ∈ our_buy_orders ours ∧ o ∉ our_sell_orders ours) ∧
    (o.buy_which_token = Token.sai ∧ o.sell_which_token = Token.gem →
      o ∈ our_sell_orders ours ∧ o ∉ our_buy_orders ours) ∧
    ¬(o ∈ our_buy_orders ours ∧ o ∈ our_sell_orders ours) := by
  unfold our_buy_orders our_sell_orders
  refine ⟨?_, ?_, ?_⟩
  · rintro ⟨h1, h2⟩
    refine ⟨List.mem_filter.mpr ⟨ho, by simp [h1, h2]⟩, ?_⟩
    intro hmem
    have := (List.mem_filter.mp hmem).2
    simp [h1, h2] at this
  · rintro ⟨h1, h2⟩
    refine ⟨List.mem_filter.mpr ⟨ho, by simp [h1, h2]⟩, ?_⟩
    intro hmem
    have := (List.mem_filter.mp hmem).2
    simp [h1, h2] at this
  · rintro ⟨hb, hs⟩
    have h1 := (List.mem_filter.mp hb).2
    have h2 := (List.mem_filter.mp hs).2
    simp at h1 h2
    rw [h1.1] at h2
    exact absurd h2.1 (by simp)

/-- Witness for C8 amended: a concrete buy order in a one-order book. -/
theorem C8_amended_witness :
    (⟨0, 1, Token.sai, 5, Token.gem, 1⟩ : Order) ∈
      [(⟨0, 1, Token.sai, 5, Token.gem, 1⟩ : Order)] ∧
    (⟨0, 1, Token.sai, 5, Token.gem, 1⟩ : Order) ∈
      our_buy_orders [⟨0, 1, Token.sai, 5, Token.gem, 1⟩] := by
  refine ⟨List.mem_singleton.mpr rfl, ?_⟩
  exact ((C8_amended [⟨0, 1, Token.sai, 5, Token.gem, 1⟩]
      ⟨0, 1, Token.sai, 5, Token.gem, 1⟩
      (List.mem_singleton.mpr rfl)).1 ⟨rfl, rfl⟩).1

end MMK

namespace MMK

/-! ### Behavior of one top-up step and of the whole top-up pass -/

theorem top_up_step_spec (s : Side) (k : ℕ) (p : ℚ) (so : List Order)
    (b : Band) (bal : ℚ) :
    (b.min_amount ≤ total_amount (in_band_orders s p so b) ∧
      top_up_step s k p so b bal = (none, bal)) ∨
    (total_amount (in_band_orders s p so b) < b.min_amount ∧
      ¬(b.dust_cutoff ≤
          min (b.avg_amount - total_amount (in_band_orders s p so b)) bal ∧
        0 < min (b.avg_amount - total_amount (in_band_orders s p so b)) bal) ∧
      top_up_step s k p so b bal = (none, bal)) ∨
    (total_amount (in_band_orders s p so b) < b.min_amount ∧
      b.dust_cutoff ≤
        min (b.avg_amount - total_amount (in_band_orders s p so b)) bal ∧
      0 < min (b.avg_amount - total_amount (in_band_orders s p so b)) bal ∧
      0 < wantAmountOf s
        (min (b.avg_amount - total_amount (in_band_orders s p so b)) bal)
        (roundTo k (b.avg_price s p)) ∧
      top_up_step s k p so b bal =
        (some ⟨haveTokenOf s,
            min (b.avg_amount - total_amount (in_band_orders s p so b)) bal,
            wantTokenOf s,
            wantAmountOf s
              (min (b.avg_amount - total_amount (in_band_orders s p so b)) bal)
              (roundTo k (b.avg_price s p))⟩,
          bal - min (b.avg_amount - total_amount (in_band_orders s p so b))
            bal)) ∨
    (total_amount (in_band_orders s p so b) < b.min_amount ∧
      b.dust_cutoff ≤
        min (b.avg_amount - total_amount (in_band_orders s p so b)) bal ∧
      0 < min (b.avg_amount - total_amount (in_band_orders s p so b)) bal ∧
      wantAmountOf s
        (min (b.avg_amount - total_amount (in_band_orders s p so b)) bal)
        (roundTo k (b.avg_price s p)) ≤ 0 ∧
      top_up_step s k p so b bal =
        (none,
          bal - min (b.avg_amount - total_amount (in_band_orders s p so b))
            bal)) := by
  simp only [top_up_step]
  split_ifs with h1 h2 h3
  · exact Or.inr (Or.inr (Or.inl ⟨h1, h2.1, h2.2, h3, rfl⟩))
  · exact Or.inr (Or.inr (Or.inr ⟨h1, h2.1, h2.2, le_of_not_lt h3, rfl⟩))
  · exact Or.inr (Or.inl ⟨h1, h2, rfl⟩)
  · exact Or.inl ⟨le_of_not_lt h1, rfl⟩

theorem top_up_step_of_min_le (s : Side) (k : ℕ) (p : ℚ) (so : List Order)
    (b : Band) (bal : ℚ)
    (h : b.min_amount ≤ total_amount (in_band_orders s p so b)) :
    top_up_step s k p so b bal = (none, bal) := by
  rcases top_up_step_spec s k p so b bal with ⟨-, he⟩ | ⟨ht, -, he⟩ |
    ⟨ht, -, -, -, he⟩ | ⟨ht, -, -, -, he⟩
  · exact he
  all_goals linarith

theorem top_up_step_snd_le (s : Side) (k : ℕ) (p : ℚ) (so : List Order)
    (b : Band) (bal : ℚ) : (top_up_step s k p so b bal).2 ≤ bal := by
  rcases top_up_step_spec s k p so b bal with ⟨-, he⟩ | ⟨-, -, he⟩ |
    ⟨-, -, hpos, -, he⟩ | ⟨-, -, hpos, -, he⟩ <;> rw [he]
  all_goals
    show bal -
      min (b.avg_amount - total_amount (in_band_orders s p so b)) bal ≤ bal
    linarith

theorem top_up_step_snd_nonneg (s : Side) (k : ℕ) (p : ℚ) (so : List Order)
    (b : Band) (bal : ℚ) (h0 : 0 ≤ bal) :
    0 ≤ (top_up_step s k p so b bal).2 := by
  rcases top_up_step_spec s k p so b bal with ⟨-, he⟩ | ⟨-, -, he⟩ |
    ⟨-, -, hpos, -, he⟩ | ⟨-, -, hpos, -, he⟩ <;> rw [he]
  · exact h0
  · exact h0
  all_goals
    show (0 : ℚ) ≤ bal -
      min (b.avg_amount - total_amount (in_band_orders s p so b)) bal
    linarith [min_le_right
      (b.avg_amount - total_amount (in_band_orders s p so b)) bal]

theorem sumHaves_append (l1 l2 : List Place) :
    sumHaves (l1 ++ l2) = sumHaves l1 + sumHaves l2 := by
  simp [sumHaves]

theorem top_up_step_sumHaves (s : Side) (k : ℕ) (p : ℚ) (so : List Order)
    (b : Band) (bal : ℚ) :
    sumHaves (top_up_step s k p so b bal).1.toList ≤
      bal - (top_up_step s k p so b bal).2 := by
  rcases top_up_step_spec s k p so b bal with ⟨-, he⟩ | ⟨-, -, he⟩ |
    ⟨-, -, hpos, -, he⟩ | ⟨-, -, hpos, -, he⟩ <;> rw [he] <;>
    simp only [Option.toList_some, Option.toList_none, sumHaves,
      List.map_cons, List.map_nil, List.sum_cons, List.sum_nil] <;>
    linarith

theorem topUpBands_snd_le (s : Side) (k : ℕ) (p : ℚ) (so : List Order) :
    ∀ (bs : List Band) (bal : ℚ), (topUpBands s k p so bs bal).2 ≤ bal := by
  intro bs
  induction bs with
  | nil => intro bal; simp [topUpBands]
  | cons b t ih =>
    intro bal
    simp only [topUpBands]
    exact le_trans (ih _) (top_up_step_snd_le s k p so b bal)

theorem topUpBands_snd_nonneg (s : Side) (k : ℕ) (p : ℚ) (so : List Order) :
    ∀ (bs : List Band) (bal : ℚ), 0 ≤ bal →
      0 ≤ (topUpBands s k p so bs bal).2 := by
  intro bs
  induction bs with
  | nil => intro bal h; simpa [topUpBands] using h
  | cons b t ih =>
    intro bal h
    simp only [topUpBands]
    exact ih _ (top_up_step_snd_nonneg s k p so b bal h)

theorem topUpBands_sumHaves_le (s : Side) (k : ℕ) (p : ℚ) (so : List Order) :
    ∀ (bs : List Band) (bal : ℚ),
      sumHaves (topUpBands s k p so bs bal).1 ≤
        bal - (topUpBands s k p so bs bal).2 := by
  intro bs
  induction bs with
  | nil => intro bal; simp [topUpBands, sumHaves]
  | cons b t ih =>
    intro bal
    simp only [topUpBands]
    rw [sumHaves_append]
    have h1 := top_up_step_sumHaves s k p so b bal
    have h2 := ih (top_up_step s k p so b bal).2
    linarith

theorem topUpBands_append (s : Side) (k : ℕ) (p : ℚ) (so : List Order) :
    ∀ (l r : List Band) (bal : ℚ),
      topUpBands s k p so (l ++ r) bal =
        ((topUpBands s k p so l bal).1 ++
          (topUpBands s k p so r (topUpBands s k p so l bal).2).1,
         (topUpBands s k p so r (topUpBands s k p so l bal).2).2) := by
  intro l
  induction l with
  | nil => intro r bal; simp [topUpBands]
  | cons b t ih =>
    intro r bal
    rw [List.cons_append]
    simp only [topUpBands]
    rw [ih]
    simp [List.append_assoc]

theorem topUpBands_no_trigger (s : Side) (k : ℕ) (p : ℚ) (so : List Order) :
    ∀ (bs : List Band) (bal : ℚ),
      (∀ b' ∈ bs, b'.min_amount ≤ total_amount (in_band_orders s p so b')) →
      (topUpBands s k p so bs bal).1 = [] := by
  intro bs
  induction bs with
  | nil => intro bal _; simp [topUpBands]
  | cons b t ih =>
    intro bal h
    simp only [topUpBands]
    rw [top_up_step_of_min_le s k p so b bal (h b (by simp))]
    simp only [Option.toList_none, List.nil_append]
    exact ih _ (fun b' hb' => h b' (by simp [hb']))

end MMK

namespace MMK

/-! ### C5, C6, C7: top-up pass properties -/

/-- C5: in one top-up pass the sum of issued `have_amount` values never
exceeds the starting available balance (for the sell pass starting from
the gem balance and for the buy pass starting from the SAI balance), the
running balance accumulator is non-increasing across bands, and it never
becomes negative when the starting balance is non-negative. -/
theorem C5_balance_conservation (ours : List Order) (bands : List Band)
    (p bal : ℚ) (k : ℕ) (h : 0 ≤ bal) :
    sumHaves (top_up_sell_bands ours bands p bal k) ≤ bal ∧
    sumHaves (top_up_buy_bands ours bands p bal k) ≤ bal ∧
    (∀ (s : Side) (sideOrders : List Order) (l r : List Band),
      (topUpBands s k p sideOrders (l ++ r) bal).2 ≤
        (topUpBands s k p sideOrders l bal).2) ∧
    (∀ (s : Side) (sideOrders : List Order) (bs : List Band),
      0 ≤ (topUpBands s k p sideOrders bs bal).2) := by
  refine ⟨?_, ?_, ?_, ?_⟩
  · have h1 := topUpBands_sumHaves_le Side.sell k p (our_sell_orders ours)
      bands bal
    have h2 := topUpBands_snd_nonneg Side.sell k p (our_sell_orders ours)
      bands bal h
    unfold top_up_sell_bands
    linarith
  · have h1 := topUpBands_sumHaves_le Side.buy k p (our_buy_orders ours)
      bands bal
    have h2 := topUpBands_snd_nonneg Side.buy k p (our_buy_orders ours)
      bands bal h
    unfold top_up_buy_bands
    linarith
  · intro s so l r
    rw [topUpBands_append]
    exact topUpBands_snd_le s k p so r _
  · intro s so bs
    exact topUpBands_snd_nonneg s k p so bs bal h

/-- Witness for C5 at concrete inputs. -/
theorem C5_balance_conservation_witness :
    (0 : ℚ) ≤ 5 ∧ sumHaves (top_up_sell_bands [] [] 3 5 2) ≤ 5 :=
  ⟨by norm_num, (C5_balance_conservation [] [] 3 5 2 (by norm_num)).1⟩

/-- C6: in a top-up pass a band generates a place-intent only when the
total size of its currently-included same-side orders is strictly below
`min_amount`, in which case the intent's `have_amount` is
`min (avg_amount - total) (available balance)`; a band whose in-band total
is at or above `min_amount` generates no place-intent, and a pass over
bands that are all at or above their minimum emits nothing. -/
theorem C6_top_up_trigger (s : Side) (k : ℕ) (p : ℚ)
    (sideOrders : List Order) (b : Band) (bal : ℚ) :
    (b.min_amount ≤ total_amount (in_band_orders s p sideOrders b) →
      (top_up_step s k p sideOrders b bal).1 = none) ∧
    (∀ pl, (top_up_step s k p sideOrders b bal).1 = some pl →
      total_amount (in_band_orders s p sideOrders b) < b.min_amount ∧
      pl.have_amount =
        min (b.avg_amount - total_amount (in_band_orders s p sideOrders b))
          bal) ∧
    (∀ bs : List Band,
      (∀ b' ∈ bs,
        b'.min_amount ≤ total_amount (in_band_orders s p sideOrders b')) →
      (topUpBands s k p sideOrders bs bal).1 = []) := by
  refine ⟨?_, ?_, ?_⟩
  · intro h
    rw [top_up_step_of_min_le s k p sideOrders b bal h]
  · intro pl hpl
    rcases top_up_step_spec s k p sideOrders b bal with ⟨-, he⟩ | ⟨-, -, he⟩ |
      ⟨ht, -, -, -, he⟩ | ⟨-, -, -, -, he⟩ <;> rw [he] at hpl
    · exact absurd hpl (by simp)
    · exact absurd hpl (by simp)
    · refine ⟨ht, ?_⟩
      have hx := Option.some.inj hpl
      rw [← hx]
    · exact absurd hpl (by simp)
  · intro bs hall
    exact topUpBands_no_trigger s k p sideOrders bs bal hall

/-- Witness for C6 at concrete inputs (a band already at its minimum). -/
theorem C6_top_up_trigger_witness :
    (⟨0, 0, 0, 0, 1, 2, 0⟩ : Band).min_amount ≤
      total_amount (in_band_orders Side.sell 3 [] ⟨0, 0, 0, 0, 1, 2, 0⟩) ∧
    (top_up_step Side.sell 2 3 [] ⟨0, 0, 0, 0, 1, 2, 0⟩ 5).1 = none := by
  have h : (⟨0, 0, 0, 0, 1, 2, 0⟩ : Band).min_amount ≤
      total_amount (in_band_orders Side.sell 3 [] ⟨0, 0, 0, 0, 1, 2, 0⟩) := by
    norm_num [total_amount, in_band_orders]
  exact ⟨h, (C6_top_up_trigger Side.sell 2 3 [] ⟨0, 0, 0, 0, 1, 2, 0⟩ 5).1 h⟩

/-- C7: if the computed `have_amount` for a band (the capped
`min (avg_amount - total) balance`) is strictly below the band's
`dust_cutoff` or not strictly positive, the band emits no place-intent and
the running balance is left unchanged. -/
theorem C7_dust_suppression (s : Side) (k : ℕ) (p : ℚ)
    (sideOrders : List Order) (b : Band) (bal : ℚ)
    (h : min (b.avg_amount - total_amount (in_band_orders s p sideOrders b))
          bal < b.dust_cutoff ∨
        min (b.avg_amount - total_amount (in_band_orders s p sideOrders b))
          bal ≤ 0) :
    top_up_step s k p sideOrders b bal = (none, bal) := by
  rcases top_up_step_spec s k p sideOrders b bal with ⟨-, he⟩ | ⟨-, -, he⟩ |
    ⟨-, hd, hpos, -, he⟩ | ⟨-, hd, hpos, -, he⟩
  · exact he
  · exact he
  all_goals rcases h with h | h <;> linarith

/-- Witness for C7 at concrete inputs (a dust-sized top-up is skipped). -/
theorem C7_dust_suppression_witness :
    (min ((⟨0, 0, 0, 5, 1, 10, 3⟩ : Band).avg_amount -
        total_amount (in_band_orders Side.sell 3 [] ⟨0, 0, 0, 5, 1, 10, 3⟩))
        10 < (⟨0, 0, 0, 5, 1, 10, 3⟩ : Band).dust_cutoff ∨
      min ((⟨0, 0, 0, 5, 1, 10, 3⟩ : Band).avg_amount -
        total_amount (in_band_orders Side.sell 3 [] ⟨0, 0, 0, 5, 1, 10, 3⟩))
        10 ≤ 0) ∧
    top_up_step Side.sell 2 3 [] ⟨0, 0, 0, 5, 1, 10, 3⟩ 10 = (none, 10) := by
  have h : min ((⟨0, 0, 0, 5, 1, 10, 3⟩ : Band).avg_amount -
      total_amount (in_band_orders Side.sell 3 [] ⟨0, 0, 0, 5, 1, 10, 3⟩))
      10 < (⟨0, 0, 0, 5, 1, 10, 3⟩ : Band).dust_cutoff := by
    norm_num [total_amount, in_band_orders]
  exact ⟨Or.inl h,
    C7_dust_suppression Side.sell 2 3 [] ⟨0, 0, 0, 5, 1, 10, 3⟩ 10 (Or.inl h)⟩

end MMK

namespace MMK

/-! ### Lemmas about band inclusion, totals and placed orders -/

theorem includes_eq_true_iff (b : Band) (s : Side) (o : Order) (p : ℚ) :
    b.includes s o p = true ↔
      lowPrice s p b ≤ orderPrice s o ∧ orderPrice s o ≤ highPrice s p b := by
  simp [Band.includes]

theorem total_amount_append (l1 l2 : List Order) :
    total_amount (l1 ++ l2) = total_amount l1 + total_amount l2 := by
  simp [total_amount]

theorem total_amount_nonneg (l : List Order)
    (h : ∀ o ∈ l, 0 ≤ o.sell_how_much) : 0 ≤ total_amount l := by
  unfold total_amount
  apply List.sum_nonneg
  intro x hx
  obtain ⟨o, ho, rfl⟩ := List.mem_map.mp hx
  exact h o ho

theorem total_amount_le_of_sublist {l1 l2 : List Order} (h : List.Sublist l1 l2)
    (hn : ∀ o ∈ l2, 0 ≤ o.sell_how_much) :
    total_amount l1 ≤ total_amount l2 := by
  induction h with
  | slnil => exact le_refl _
  | @cons la lb o h ih =>
    have h0 : 0 ≤ o.sell_how_much := hn o (by simp)
    have hrec := ih (fun o' ho' => hn o' (by simp [ho']))
    have hcons : total_amount (o :: lb) =
        o.sell_how_much + total_amount lb := by
      simp [total_amount]
    linarith
  | @cons₂ la lb o h ih =>
    have hrec := ih (fun o' ho' => hn o' (by simp [ho']))
    have hc1 : total_amount (o :: la) =
        o.sell_how_much + total_amount la := by
      simp [total_amount]
    have hc2 : total_amount (o :: lb) =
        o.sell_how_much + total_amount lb := by
      simp [total_amount]
    linarith

theorem in_band_orders_append (s : Side) (p : ℚ) (so1 so2 : List Order)
    (b : Band) :
    in_band_orders s p (so1 ++ so2) b =
      in_band_orders s p so1 b ++ in_band_orders s p so2 b := by
  simp [in_band_orders]

theorem top_up_step_congr (s : Side) (k : ℕ) (p : ℚ) {so1 so2 : List Order}
    (b : Band) (bal : ℚ)
    (h : in_band_orders s p so1 b = in_band_orders s p so2 b) :
    top_up_step s k p so1 b bal = top_up_step s k p so2 b bal := by
  simp only [top_up_step, h]

theorem topUpBands_congr (s : Side) (k : ℕ) (p : ℚ) {so1 so2 : List Order} :
    ∀ (bs : List Band) (bal : ℚ),
      (∀ b ∈ bs, in_band_orders s p so1 b = in_band_orders s p so2 b) →
      topUpBands s k p so1 bs bal = topUpBands s k p so2 bs bal := by
  intro bs
  induction bs with
  | nil => intro bal _; simp [topUpBands]
  | cons b t ih =>
    intro bal h
    simp only [topUpBands]
    rw [top_up_step_congr s k p b bal (h b (by simp))]
    rw [ih _ (fun b' hb' => h b' (by simp [hb']))]

theorem topUpBands_extend (s : Side) (k : ℕ) (p : ℚ) (so extra : List Order)
    (bs : List Band) (bal : ℚ)
    (h : ∀ b ∈ bs, in_band_orders s p extra b = []) :
    topUpBands s k p (so ++ extra) bs bal = topUpBands s k p so bs bal := by
  apply topUpBands_congr
  intro b hb
  rw [in_band_orders_append, h b hb, List.append_nil]

theorem wantAmountOf_pos (s : Side) {hv rr : ℚ} (h1 : 0 < hv)
    (h2 : 0 < rr) : 0 < wantAmountOf s hv rr := by
  cases s <;> simp [wantAmountOf] <;> positivity

theorem orderPrice_placedOrder (s : Side) (addr : ℕ) {hv rr : ℚ}
    (h1 : hv ≠ 0) (h2 : rr ≠ 0) :
    orderPrice s (placedOrder addr
      ⟨haveTokenOf s, hv, wantTokenOf s, wantAmountOf s hv rr⟩) = rr := by
  cases s <;> simp [orderPrice, placedOrder, wantAmountOf] <;> field_simp

theorem topUpBands_places_spec (s : Side) (k : ℕ) (p : ℚ) (addr : ℕ)
    (so : List Order) :
    ∀ (bs : List Band) (bal : ℚ),
      (∀ b ∈ bs, bandGeomOK s k p b) →
      ∀ pl ∈ (topUpBands s k p so bs bal).1,
        ∃ b ∈ bs,
          0 < pl.have_amount ∧
          pl.have_amount ≤
            b.avg_amount - total_amount (in_band_orders s p so b) ∧
          pl.have_token = haveTokenOf s ∧
          pl.want_token = wantTokenOf s ∧
          orderPrice s (placedOrder addr pl) =
            roundTo k (b.avg_price s p) := by
  intro bs
  induction bs with
  | nil => intro bal _ pl hpl; simp [topUpBands] at hpl
  | cons b t ih =>
    intro bal hgeom pl hpl
    simp only [topUpBands] at hpl
    rw [List.mem_append] at hpl
    rcases hpl with hpl | hpl
    · rcases top_up_step_spec s k p so b bal with ⟨-, he⟩ | ⟨-, -, he⟩ |
        ⟨-, -, hpos, -, he⟩ | ⟨-, -, -, -, he⟩ <;> rw [he] at hpl <;>
        simp at hpl
      obtain ⟨hlo, -, -⟩ := hgeom b (by simp)
      have hr : 0 < roundTo k (b.avg_price s p) :=
        lt_of_lt_of_le hlo (hgeom b (by simp)).2.1
      subst hpl
      refine ⟨b, by simp, hpos, min_le_left _ _, rfl, rfl, ?_⟩
      exact orderPrice_placedOrder s addr (ne_of_gt hpos) (ne_of_gt hr)
    · obtain ⟨b', hb', hrest⟩ :=
        ih _ (fun b' h => hgeom b' (by simp [h])) pl hpl
      exact ⟨b', by simp [hb'], hrest⟩

theorem topUpBands_sumHaves_eq (s : Side) (k : ℕ) (p : ℚ)
    (so : List Order) :
    ∀ (bs : List Band) (bal : ℚ),
      (∀ b ∈ bs, 0 < roundTo k (b.avg_price s p)) →
      sumHaves (topUpBands s k p so bs bal).1 =
        bal - (topUpBands s k p so bs bal).2 := by
  intro bs
  induction bs with
  | nil => intro bal _; simp [topUpBands, sumHaves]
  | cons b t ih =>
    intro bal hr
    simp only [topUpBands]
    rw [sumHaves_append]
    have hih := ih (top_up_step s k p so b bal).2
      (fun b' hb' => hr b' (by simp [hb']))
    rcases top_up_step_spec s k p so b bal with ⟨-, he⟩ | ⟨-, -, he⟩ |
      ⟨-, -, hpos, -, he⟩ | ⟨-, -, hpos, hw, he⟩
    · rw [he] at hih ⊢
      simp only [Option.toList_none] at *
      rw [hih]
      simp [sumHaves]
    · rw [he] at hih ⊢
      simp only [Option.toList_none] at *
      rw [hih]
      simp [sumHaves]
    · rw [he] at hih ⊢
      simp only [Option.toList_some] at *
      rw [hih]
      have : sumHaves [(⟨haveTokenOf s,
          min (b.avg_amount - total_amount (in_band_orders s p so b)) bal,
          wantTokenOf s,
          wantAmountOf s
            (min (b.avg_amount - total_amount (in_band_orders s p so b)) bal)
            (roundTo k (b.avg_price s p))⟩ : Place)] =
          min (b.avg_amount - total_amount (in_band_orders s p so b)) bal := by
        simp [sumHaves]
      rw [this]
      ring
    · exact absurd (wantAmountOf_pos s hpos (hr b (by simp))) (not_lt.mpr hw)

end MMK

namespace MMK

/-! ### The second top-up pass over an unchanged configuration is empty -/

theorem top_up_step_none_of_small (s : Side) (k : ℕ) (p : ℚ)
    (so : List Order) (b : Band) (bal : ℚ)
    (h : min (b.avg_amount - total_amount (in_band_orders s p so b)) bal <
          b.dust_cutoff ∨
        min (b.avg_amount - total_amount (in_band_orders s p so b)) bal ≤ 0) :
    top_up_step s k p so b bal = (none, bal) := by
  rcases top_up_step_spec s k p so b bal with ⟨-, he⟩ | ⟨-, -, he⟩ |
    ⟨-, hd, hpos, -, he⟩ | ⟨-, hd, hpos, -, he⟩
  · exact he
  · exact he
  all_goals rcases h with h | h <;> linarith

theorem topUpBands_second_nil (s : Side) (k : ℕ) (p : ℚ) (addr : ℕ) :
    ∀ (bs : List Band) (so : List Order) (bal1 bal2 : ℚ),
      (∀ b ∈ bs, b.min_amount ≤ b.avg_amount) →
      (∀ b ∈ bs, bandGeomOK s k p b) →
      bandsDisjoint s p bs →
      bal2 ≤ (topUpBands s k p so bs bal1).2 →
      (topUpBands s k p
        (so ++ (topUpBands s k p so bs bal1).1.map (placedOrder addr))
        bs bal2).1 = [] := by
  intro bs
  induction bs with
  | nil => intro so bal1 bal2 _ _ _ _; simp [topUpBands]
  | cons b t ih =>
    intro so bal1 bal2 hA hG hD hbal2
    rw [bandsDisjoint, List.pairwise_cons] at hD
    obtain ⟨hDb, hDt⟩ := hD
    obtain ⟨hlo, hrlo, hrhi⟩ := hG b (by simp)
    have hrpos : 0 < roundTo k (b.avg_price s p) := lt_of_lt_of_le hlo hrlo
    -- tail-placed orders never fall into the head band
    have hETb : ∀ β : ℚ,
        in_band_orders s p
          (((topUpBands s k p so t β).1).map (placedOrder addr)) b = [] := by
      intro β
      rw [in_band_orders, List.filter_eq_nil_iff]
      intro o ho
      obtain ⟨pl, hpl, rfl⟩ := List.mem_map.mp ho
      obtain ⟨b', hb', -, -, -, -, hprice⟩ :=
        topUpBands_places_spec s k p addr so t β
          (fun b'' h => hG b'' (by simp [h])) pl hpl
      obtain ⟨hlo', hrlo', hrhi'⟩ := hG b' (by simp [hb'])
      have hdisj := hDb b' hb'
      rw [includes_eq_true_iff, hprice]
      rintro ⟨h1, h2⟩
      rcases hdisj with h | h <;> linarith
    -- head-placed order never falls into a tail band
    have hE0t : ∀ (pl : Place),
        orderPrice s (placedOrder addr pl) = roundTo k (b.avg_price s p) →
        ∀ b'' ∈ t,
          in_band_orders s p [placedOrder addr pl] b'' = [] := by
      intro pl hpr b'' hb''
      rw [in_band_orders, List.filter_eq_nil_iff]
      intro o ho
      rw [List.mem_singleton] at ho
      subst ho
      obtain ⟨hlo'', hrlo'', hrhi''⟩ := hG b'' (by simp [hb''])
      have hdisj := hDb b'' hb''
      rw [includes_eq_true_iff, hpr]
      rintro ⟨h1, h2⟩
      rcases hdisj with h | h <;> linarith
    have hbalF_le : (topUpBands s k p so t (top_up_step s k p so b bal1).2).2 ≤
        (top_up_step s k p so b bal1).2 :=
      topUpBands_snd_le s k p so t _
    have hbal2' : bal2 ≤
        (topUpBands s k p so t (top_up_step s k p so b bal1).2).2 := by
      simpa only [topUpBands] using hbal2
    have hAt : ∀ b' ∈ t, b'.min_amount ≤ b'.avg_amount :=
      fun b' h => hA b' (by simp [h])
    have hGt : ∀ b' ∈ t, bandGeomOK s k p b' :=
      fun b' h => hG b' (by simp [h])
    rcases top_up_step_spec s k p so b bal1 with ⟨hmin, he⟩ | ⟨hlt, hdust, he⟩ |
      ⟨hlt, hdge, hpos, hwant, he⟩ | ⟨hlt, hdge, hpos, hwant, he⟩
    · -- head band already at or above its minimum: nothing was placed
      rw [he] at hbalF_le hbal2'
      simp only [topUpBands, he, Option.toList_none, List.nil_append]
      have htot2 : total_amount (in_band_orders s p
          (so ++ ((topUpBands s k p so t bal1).1).map (placedOrder addr)) b) =
          total_amount (in_band_orders s p so b) := by
        rw [in_band_orders_append, total_amount_append, hETb bal1]
        simp [total_amount]
      rw [top_up_step_of_min_le s k p _ b bal2 (by rw [htot2]; exact hmin)]
      simp only [Option.toList_none, List.nil_append]
      exact ih so bal1 bal2 hAt hGt hDt hbal2'
    · -- dust-capped band: nothing was placed, and the second pass computes
      -- an even smaller top-up amount
      rw [he] at hbalF_le hbal2'
      simp only [topUpBands, he, Option.toList_none, List.nil_append]
      have htot2 : total_amount (in_band_orders s p
          (so ++ ((topUpBands s k p so t bal1).1).map (placedOrder addr)) b) =
          total_amount (in_band_orders s p so b) := by
        rw [in_band_orders_append, total_amount_append, hETb bal1]
        simp [total_amount]
      have hb2b1 : bal2 ≤ bal1 := le_trans hbal2' hbalF_le
      have hsmall : min (b.avg_amount - total_amount (in_band_orders s p
            (so ++ ((topUpBands s k p so t bal1).1).map (placedOrder addr)) b))
            bal2 < b.dust_cutoff ∨
          min (b.avg_amount - total_amount (in_band_orders s p
            (so ++ ((topUpBands s k p so t bal1).1).map (placedOrder addr)) b))
            bal2 ≤ 0 := by
        rw [htot2]
        have hmono : min (b.avg_amount -
              total_amount (in_band_orders s p so b)) bal2 ≤
            min (b.avg_amount - total_amount (in_band_orders s p so b)) bal1 :=
          min_le_min (le_refl _) hb2b1
        rcases not_and_or.mp hdust with h | h
        · exact Or.inl (lt_of_le_of_lt hmono (not_le.mp h))
        · exact Or.inr (le_trans hmono (not_lt.mp h))
      rw [top_up_step_none_of_small s k p _ b bal2 hsmall]
      simp only [Option.toList_none, List.nil_append]
      exact ih so bal1 bal2 hAt hGt hDt hbal2'
    · -- the head band placed an order in pass one
      rw [he] at hbalF_le hbal2'
      simp only [] at hbalF_le hbal2'
      simp only [topUpBands, he, Option.toList_some, List.cons_append,
        List.map_cons, List.nil_append]
      -- the placed order of the head band
      have hpr : orderPrice s (placedOrder addr
          ⟨haveTokenOf s,
            min (b.avg_amount - total_amount (in_band_orders s p so b)) bal1,
            wantTokenOf s,
            wantAmountOf s
              (min (b.avg_amount - total_amount (in_band_orders s p so b))
                bal1)
              (roundTo k (b.avg_price s p))⟩) =
          roundTo k (b.avg_price s p) :=
        orderPrice_placedOrder s addr (ne_of_gt hpos) (ne_of_gt hrpos)
      have hXin : Band.includes b s (placedOrder addr
          ⟨haveTokenOf s,
            min (b.avg_amount - total_amount (in_band_orders s p so b)) bal1,
            wantTokenOf s,
            wantAmountOf s
              (min (b.avg_amount - total_amount (in_band_orders s p so b))
                bal1)
              (roundTo k (b.avg_price s p))⟩) p = true := by
        rw [includes_eq_true_iff, hpr]
        exact ⟨hrlo, hrhi⟩
      -- rewrite the appended book as (so ++ [placed]) ++ tail-placed
      rw [List.append_cons]
      have hsofix : ∀ β : ℚ,
          topUpBands s k p (so ++ [placedOrder addr
            ⟨haveTokenOf s,
              min (b.avg_amount - total_amount (in_band_orders s p so b))
                bal1,
              wantTokenOf s,
              wantAmountOf s
                (min (b.avg_amount - total_amount (in_band_orders s p so b))
                  bal1)
                (roundTo k (b.avg_price s p))⟩]) t β =
            topUpBands s k p so t β := by
        intro β
        exact topUpBands_extend s k p so _ t β (fun b'' hb'' =>
          hE0t _ hpr b'' hb'')
      have htot2 : total_amount (in_band_orders s p
          ((so ++ [placedOrder addr
            ⟨haveTokenOf s,
              min (b.avg_amount - total_amount (in_band_orders s p so b))
                bal1,
              wantTokenOf s,
              wantAmountOf s
                (min (b.avg_amount - total_amount (in_band_orders s p so b))
                  bal1)
                (roundTo k (b.avg_price s p))⟩]) ++
            ((topUpBands s k p so t
              (bal1 - min (b.avg_amount -
                total_amount (in_band_orders s p so b)) bal1)).1).map
              (placedOrder addr)) b) =
          total_amount (in_band_orders s p so b) +
            min (b.avg_amount - total_amount (in_band_orders s p so b))
              bal1 := by
        rw [in_band_orders_append, total_amount_append, hETb _,
          in_band_orders_append, total_amount_append]
        have hsingle : in_band_orders s p [placedOrder addr
            ⟨haveTokenOf s,
              min (b.avg_amount - total_amount (in_band_orders s p so b))
                bal1,
              wantTokenOf s,
              wantAmountOf s
                (min (b.avg_amount - total_amount (in_band_orders s p so b))
                  bal1)
                (roundTo k (b.avg_price s p))⟩] b = [placedOrder addr
            ⟨haveTokenOf s,
              min (b.avg_amount - total_amount (in_band_orders s p so b))
                bal1,
              wantTokenOf s,
              wantAmountOf s
                (min (b.avg_amount - total_amount (in_band_orders s p so b))
                  bal1)
                (roundTo k (b.avg_price s p))⟩] := by
          rw [in_band_orders]
          rw [List.filter_eq_self]
          intro o ho
          rw [List.mem_singleton] at ho
          subst ho
          exact hXin
        rw [hsingle]
        simp [total_amount, placedOrder]
      -- the second-pass head step is a no-op
      have hstep2 : top_up_step s k p
          ((so ++ [placedOrder addr
            ⟨haveTokenOf s,
              min (b.avg_amount - total_amount (in_band_orders s p so b))
                bal1,
              wantTokenOf s,
              wantAmountOf s
                (min (b.avg_amount - total_amount (in_band_orders s p so b))
                  bal1)
                (roundTo k (b.avg_price s p))⟩]) ++
            ((topUpBands s k p so t
              (bal1 - min (b.avg_amount -
                total_amount (in_band_orders s p so b)) bal1)).1).map
              (placedOrder addr)) b bal2 = (none, bal2) := by
        by_cases hmin2 : b.min_amount ≤
            total_amount (in_band_orders s p so b) +
              min (b.avg_amount - total_amount (in_band_orders s p so b)) bal1
        · exact top_up_step_of_min_le s k p _ b bal2 (by rw [htot2]; exact hmin2)
        · -- pass one was balance-capped, so the remaining balance is zero
          have hvlt : min (b.avg_amount -
                total_amount (in_band_orders s p so b)) bal1 <
              b.avg_amount - total_amount (in_band_orders s p so b) := by
            have := hA b (by simp)
            push_neg at hmin2
            linarith
          have hveq : min (b.avg_amount -
                total_amount (in_band_orders s p so b)) bal1 = bal1 := by
            rcases le_total (b.avg_amount -
                total_amount (in_band_orders s p so b)) bal1 with h | h
            · rw [min_eq_left h] at hvlt
              exact absurd hvlt (lt_irrefl _)
            · exact min_eq_right h
          have hbal20 : bal2 ≤ 0 := by
            rw [hveq] at hbal2' hbalF_le
            have h0 : bal1 - bal1 = 0 := by ring
            rw [h0] at hbal2' hbalF_le
            linarith
          apply top_up_step_none_of_small
          exact Or.inr (le_trans (min_le_right _ _) hbal20)
      rw [hstep2]
      simp only [Option.toList_none, List.nil_append]
      -- the tail of the second pass via the induction hypothesis
      have hbal2t : bal2 ≤ (topUpBands s k p (so ++ [placedOrder addr
          ⟨haveTokenOf s,
            min (b.avg_amount - total_amount (in_band_orders s p so b)) bal1,
            wantTokenOf s,
            wantAmountOf s
              (min (b.avg_amount - total_amount (in_band_orders s p so b))
                bal1)
              (roundTo k (b.avg_price s p))⟩]) t
          (bal1 - min (b.avg_amount -
            total_amount (in_band_orders s p so b)) bal1)).2 := by
        rw [hsofix]
        exact hbal2'
      have := ih (so ++ [placedOrder addr
          ⟨haveTokenOf s,
            min (b.avg_amount - total_amount (in_band_orders s p so b)) bal1,
            wantTokenOf s,
            wantAmountOf s
              (min (b.avg_amount - total_amount (in_band_orders s p so b))
                bal1)
              (roundTo k (b.avg_price s p))⟩])
        (bal1 - min (b.avg_amount -
          total_amount (in_band_orders s p so b)) bal1) bal2 hAt hGt hDt hbal2t
      rw [hsofix] at this
      exact this
    · -- a non-positive want amount is impossible here
      exact absurd (wantAmountOf_pos s hpos hrpos) (not_lt.mpr hwant)

end MMK

namespace MMK

/-! ### Disjoint bands pass the overlap validator -/

theorem two_bands_overlap_eq_false_of_sep (s : Side) {p : ℚ} (hp : 0 < p)
    {b1 b2 : Band}
    (h : highPrice s p b1 < lowPrice s p b2 ∨
      highPrice s p b2 < lowPrice s p b1) :
    two_bands_overlap b1 b2 = false := by
  rw [two_bands_overlap, decide_eq_false_iff_not]
  rintro ⟨h1, h2⟩
  cases s <;>
    simp only [lowPrice, highPrice, applyMargin] at h <;>
    rcases h with h | h <;>
    have := (mul_lt_mul_left hp).mp h <;>
    linarith

theorem bands_overlap_eq_false_of_disjoint (s : Side) {p : ℚ} (hp : 0 < p) :
    ∀ bs : List Band, bandsDisjoint s p bs → bands_overlap bs = false := by
  have hcount : ∀ bs : List Band, bandsDisjoint s p bs → ∀ b1 ∈ bs,
      (bs.filter fun b2 => two_bands_overlap b1 b2).length ≤ 1 := by
    intro bs
    induction bs with
    | nil => intro _ b1 hb1; simp at hb1
    | cons c t ih =>
      intro hD b1 hb1
      rw [bandsDisjoint, List.pairwise_cons] at hD
      obtain ⟨hct, hpt⟩ := hD
      rcases List.mem_cons.mp hb1 with rfl | hb1t
      · have hnil : (t.filter fun b2 => two_bands_overlap b1 b2) = [] := by
          rw [List.filter_eq_nil_iff]
          intro b2 hb2
          rw [two_bands_overlap_eq_false_of_sep s hp (hct b2 hb2)]
          simp
        rw [List.filter_cons]
        split <;> simp [hnil]
      · have hfc : two_bands_overlap b1 c = false :=
          two_bands_overlap_eq_false_of_sep s hp (Or.symm (hct b1 hb1t))
        rw [List.filter_cons, hfc]
        simpa using ih hpt b1 hb1t
  intro bs hD
  rw [bands_overlap, List.any_eq_false]
  intro b1 hb1
  simp only [decide_eq_true_eq, not_lt]
  exact hcount bs hD b1 hb1

/-! ### Phase-1 cancellation caps the surviving in-band totals -/

theorem total_after_cancel_le_max (s : Side) (p : ℚ) (b : Band)
    (sideOrders cancels : List Order)
    (hnn : ∀ o ∈ sideOrders, 0 ≤ o.sell_how_much)
    (hexc : ∀ o ∈ b.excessive_orders s sideOrders p, o ∈ cancels)
    (hmax : 0 ≤ b.max_amount) :
    total_amount (in_band_orders s p
      (sideOrders.filter fun o => decide (o ∉ cancels)) b) ≤
      b.max_amount := by
  by_cases hover :
      b.max_amount < total_amount (in_band_orders s p sideOrders b)
  · have hexc' : ∀ o ∈ in_band_orders s p sideOrders b, o ∈ cancels := by
      intro o ho
      apply hexc
      rw [Band.excessive_orders, if_pos hover]
      exact ho
    have hnil : in_band_orders s p
        (sideOrders.filter fun o => decide (o ∉ cancels)) b = [] := by
      rw [in_band_orders, List.filter_eq_nil_iff]
      intro o ho
      have h1 := List.mem_filter.mp ho
      have hnc : o ∉ cancels := by
        have := h1.2
        simpa using this
      intro hinc
      exact hnc (hexc' o (List.mem_filter.mpr ⟨h1.1, hinc⟩))
    rw [hnil]
    simpa [total_amount] using hmax
  · push_neg at hover
    have hsub : List.Sublist (in_band_orders s p
        (sideOrders.filter fun o => decide (o ∉ cancels)) b)
        (in_band_orders s p sideOrders b) := by
      unfold in_band_orders
      exact List.Sublist.filter _ (List.filter_sublist _)
    have hnn' : ∀ o ∈ in_band_orders s p sideOrders b,
        0 ≤ o.sell_how_much :=
      fun o ho => hnn o (List.mem_filter.mp ho).1
    exact le_trans (total_amount_le_of_sublist hsub hnn') hover

/-! ### Totals after adding the pass-one placements stay bounded -/

theorem total_with_placed_le (s : Side) (k : ℕ) (p : ℚ) (addr : ℕ)
    (so : List Order) :
    ∀ (bs : List Band) (bal : ℚ),
      (∀ b ∈ bs, bandGeomOK s k p b) →
      bandsDisjoint s p bs →
      ∀ b ∈ bs,
        total_amount (in_band_orders s p
          (so ++ ((topUpBands s k p so bs bal).1).map (placedOrder addr))
          b) ≤
          max (total_amount (in_band_orders s p so b)) b.avg_amount := by
  intro bs
  induction bs generalizing so with
  | nil => intro bal _ _ b hb; simp at hb
  | cons c t ih =>
    intro bal hG hD b hb
    rw [bandsDisjoint, List.pairwise_cons] at hD
    obtain ⟨hct, hpt⟩ := hD
    obtain ⟨hloc, hrloc, hrhic⟩ := hG c (by simp)
    have hrposc : 0 < roundTo k (c.avg_price s p) :=
      lt_of_lt_of_le hloc hrloc
    have hGt : ∀ b' ∈ t, bandGeomOK s k p b' :=
      fun b' h => hG b' (by simp [h])
    have hETnotc : ∀ β : ℚ,
        in_band_orders s p
          (((topUpBands s k p so t β).1).map (placedOrder addr)) c = [] := by
      intro β
      rw [in_band_orders, List.filter_eq_nil_iff]
      intro o ho
      obtain ⟨pl, hpl, rfl⟩ := List.mem_map.mp ho
      obtain ⟨b', hb', -, -, -, -, hprice⟩ :=
        topUpBands_places_spec s k p addr so t β hGt pl hpl
      obtain ⟨hlo', hrlo', hrhi'⟩ := hGt b' hb'
      have hdisj := hct b' hb'
      rw [includes_eq_true_iff, hprice]
      rintro ⟨h1, h2⟩
      rcases hdisj with h | h <;> linarith
    rcases List.mem_cons.mp hb with rfl | hbt
    · -- bound for the head band itself
      simp only [topUpBands]
      rcases top_up_step_spec s k p so b bal with ⟨hmin, he⟩ |
        ⟨hlt, hdust, he⟩ | ⟨hlt, hdge, hpos, hwant, he⟩ |
        ⟨hlt, hdge, hpos, hwant, he⟩ <;> rw [he] <;>
        simp only [Option.toList_none, Option.toList_some,
          List.nil_append, List.cons_append, List.map_cons]
      · rw [in_band_orders_append, total_amount_append, hETnotc _]
        simp only [total_amount, List.map_nil, List.sum_nil, add_zero]
        exact le_max_left _ _
      · rw [in_band_orders_append, total_amount_append, hETnotc _]
        simp only [total_amount, List.map_nil, List.sum_nil, add_zero]
        exact le_max_left _ _
      · -- the placed order of the head band contributes its have amount
        rw [List.append_cons, in_band_orders_append, total_amount_append,
          hETnotc _, in_band_orders_append, total_amount_append]
        have hpr : orderPrice s (placedOrder addr
            ⟨haveTokenOf s,
              min (b.avg_amount - total_amount (in_band_orders s p so b))
                bal,
              wantTokenOf s,
              wantAmountOf s
                (min (b.avg_amount - total_amount (in_band_orders s p so b))
                  bal)
                (roundTo k (b.avg_price s p))⟩) =
            roundTo k (b.avg_price s p) :=
          orderPrice_placedOrder s addr (ne_of_gt hpos) (ne_of_gt hrposc)
        have hsingle : in_band_orders s p [placedOrder addr
            ⟨haveTokenOf s,
              min (b.avg_amount - total_amount (in_band_orders s p so b))
                bal,
              wantTokenOf s,
              wantAmountOf s
                (min (b.avg_amount - total_amount (in_band_orders s p so b))
                  bal)
                (roundTo k (b.avg_price s p))⟩] b = [placedOrder addr
            ⟨haveTokenOf s,
              min (b.avg_amount - total_amount (in_band_orders s p so b))
                bal,
              wantTokenOf s,
              wantAmountOf s
                (min (b.avg_amount - total_amount (in_band_orders s p so b))
                  bal)
                (roundTo k (b.avg_price s p))⟩] := by
          rw [in_band_orders, List.filter_eq_self]
          intro o ho
          rw [List.mem_singleton] at ho
          subst ho
          rw [includes_eq_true_iff, hpr]
          exact ⟨hrloc, hrhic⟩
        rw [hsingle]
        have hmle : min (b.avg_amount -
              total_amount (in_band_orders s p so b)) bal ≤
            b.avg_amount - total_amount (in_band_orders s p so b) :=
          min_le_left _ _
        have : total_amount [placedOrder addr
            ⟨haveTokenOf s,
              min (b.avg_amount - total_amount (in_band_orders s p so b))
                bal,
              wantTokenOf s,
              wantAmountOf s
                (min (b.avg_amount - total_amount (in_band_orders s p so b))
                  bal)
                (roundTo k (b.avg_price s p))⟩] =
            min (b.avg_amount - total_amount (in_band_orders s p so b))
              bal := by
          simp [total_amount, placedOrder]
        rw [this]
        have hzero : total_amount ([] : List Order) = 0 := by
          simp [total_amount]
        rw [hzero]
        have hfin : total_amount (in_band_orders s p so b) +
            min (b.avg_amount - total_amount (in_band_orders s p so b)) bal +
              0 ≤ b.avg_amount := by linarith
        exact le_trans hfin (le_max_right _ _)
      · rw [in_band_orders_append, total_amount_append, hETnotc _]
        simp only [total_amount, List.map_nil, List.sum_nil, add_zero]
        exact le_max_left _ _
    · -- bound for a tail band: the head placement does not touch it
      simp only [topUpBands]
      obtain ⟨hlo'', hrlo'', hrhi''⟩ := hGt b hbt
      have hdisj := hct b hbt
      rcases top_up_step_spec s k p so c bal with ⟨hmin, he⟩ |
        ⟨hlt, hdust, he⟩ | ⟨hlt, hdge, hpos, hwant, he⟩ |
        ⟨hlt, hdge, hpos, hwant, he⟩ <;> rw [he] <;>
        simp only [Option.toList_none, Option.toList_some,
          List.nil_append, List.cons_append, List.map_cons]
      · exact ih so _ hGt hpt b hbt
      · exact ih so _ hGt hpt b hbt
      · rw [List.append_cons]
        have hpr : orderPrice s (placedOrder addr
            ⟨haveTokenOf s,
              min (c.avg_amount - total_amount (in_band_orders s p so c))
                bal,
              wantTokenOf s,
              wantAmountOf s
                (min (c.avg_amount - total_amount (in_band_orders s p so c))
                  bal)
                (roundTo k (c.avg_price s p))⟩) =
            roundTo k (c.avg_price s p) :=
          orderPrice_placedOrder s addr (ne_of_gt hpos) (ne_of_gt hrposc)
        have hnotb : in_band_orders s p [placedOrder addr
            ⟨haveTokenOf s,
              min (c.avg_amount - total_amount (in_band_orders s p so c))
                bal,
              wantTokenOf s,
              wantAmountOf s
                (min (c.avg_amount - total_amount (in_band_orders s p so c))
                  bal)
                (roundTo k (c.avg_price s p))⟩] b = [] := by
          rw [in_band_orders, List.filter_eq_nil_iff]
          intro o ho
          rw [List.mem_singleton] at ho
          subst ho
          rw [includes_eq_true_iff, hpr]
          rintro ⟨h1, h2⟩
          rcases hdisj with h | h <;> linarith
        have hins : total_amount (in_band_orders s p ((so ++ [placedOrder addr
            ⟨haveTokenOf s,
              min (c.avg_amount - total_amount (in_band_orders s p so c))
                bal,
              wantTokenOf s,
              wantAmountOf s
                (min (c.avg_amount - total_amount (in_band_orders s p so c))
                  bal)
                (roundTo k (c.avg_price s p))⟩]) ++
            ((topUpBands s k p so t
              (bal - min (c.avg_amount -
                total_amount (in_band_orders s p so c)) bal)).1).map
              (placedOrder addr)) b) ≤
            max (total_amount (in_band_orders s p (so ++ [placedOrder addr
            ⟨haveTokenOf s,
              min (c.avg_amount - total_amount (in_band_orders s p so c))
                bal,
              wantTokenOf s,
              wantAmountOf s
                (min (c.avg_amount - total_amount (in_band_orders s p so c))
                  bal)
                (roundTo k (c.avg_price s p))⟩]) b)) b.avg_amount := by
          have hfix := topUpBands_extend s k p so [placedOrder addr
            ⟨haveTokenOf s,
              min (c.avg_amount - total_amount (in_band_orders s p so c))
                bal,
              wantTokenOf s,
              wantAmountOf s
                (min (c.avg_amount - total_amount (in_band_orders s p so c))
                  bal)
                (roundTo k (c.avg_price s p))⟩] t
            (bal - min (c.avg_amount -
              total_amount (in_band_orders s p so c)) bal)
            (fun b'' hb'' => by
              rw [in_band_orders, List.filter_eq_nil_iff]
              intro o ho
              rw [List.mem_singleton] at ho
              subst ho
              obtain ⟨hlo3, hrlo3, hrhi3⟩ := hGt b'' hb''
              have hdisj3 := hct b'' hb''
              rw [includes_eq_true_iff, hpr]
              rintro ⟨h1, h2⟩
              rcases hdisj3 with h | h <;> linarith)
          have := ih (so ++ [placedOrder addr
            ⟨haveTokenOf s,
              min (c.avg_amount - total_amount (in_band_orders s p so c))
                bal,
              wantTokenOf s,
              wantAmountOf s
                (min (c.avg_amount - total_amount (in_band_orders s p so c))
                  bal)
                (roundTo k (c.avg_price s p))⟩])
            (bal - min (c.avg_amount -
              total_amount (in_band_orders s p so c)) bal) hGt hpt b hbt
          rw [hfix] at this
          exact this
        have hsame : total_amount (in_band_orders s p (so ++ [placedOrder addr
            ⟨haveTokenOf s,
              min (c.avg_amount - total_amount (in_band_orders s p so c))
                bal,
              wantTokenOf s,
              wantAmountOf s
                (min (c.avg_amount - total_amount (in_band_orders s p so c))
                  bal)
                (roundTo k (c.avg_price s p))⟩]) b) =
            total_amount (in_band_orders s p so b) := by
          rw [in_band_orders_append, total_amount_append, hnotb]
          simp [total_amount]
        rw [hsame] at hins
        exact hins
      · exact ih so _ hGt hpt b hbt

end MMK

namespace MMK

/-! ### Classification of placed orders and bookkeeping helpers -/

theorem topUpBands_tokens (s : Side) (k : ℕ) (p : ℚ) (so : List Order) :
    ∀ (bs : List Band) (bal : ℚ), ∀ pl ∈ (topUpBands s k p so bs bal).1,
      pl.have_token = haveTokenOf s ∧ pl.want_token = wantTokenOf s := by
  intro bs
  induction bs with
  | nil => intro bal pl hpl; simp [topUpBands] at hpl
  | cons b t ih =>
    intro bal pl hpl
    simp only [topUpBands] at hpl
    rw [List.mem_append] at hpl
    rcases hpl with hpl | hpl
    · rcases top_up_step_spec s k p so b bal with ⟨-, he⟩ | ⟨-, -, he⟩ |
        ⟨-, -, -, -, he⟩ | ⟨-, -, -, -, he⟩ <;> rw [he] at hpl <;>
        simp at hpl
      subst hpl
      exact ⟨rfl, rfl⟩
    · exact ih _ pl hpl

theorem synchronize_orders_some (ethBal minEth : ℚ) (addr : ℕ)
    (book : List Order) (p : ℚ) (buyCfg sellCfg : List Band)
    (saiBal gemBal : ℚ) (k : ℕ) (heth : ¬ ethBal < minEth) (tf : Bool)
    (bb sb : List Band)
    (hcfg : band_configuration buyCfg sellCfg = (tf, bb, sb)) :
    synchronize_orders ethBal minEth addr book (some p) buyCfg sellCfg
      saiBal gemBal k =
      { terminate := tf
        cancels := excessive_buy_orders (our_orders addr book) bb p ++
          excessive_sell_orders (our_orders addr book) sb p ++
          outside_orders (our_orders addr book) bb sb p
        places :=
          top_up_buy_bands ((our_orders addr book).filter fun o =>
            decide (o ∉ (excessive_buy_orders (our_orders addr book) bb p ++
              excessive_sell_orders (our_orders addr book) sb p ++
              outside_orders (our_orders addr book) bb sb p)))
            bb p saiBal k ++
          top_up_sell_bands ((our_orders addr book).filter fun o =>
            decide (o ∉ (excessive_buy_orders (our_orders addr book) bb p ++
              excessive_sell_orders (our_orders addr book) sb p ++
              outside_orders (our_orders addr book) bb sb p)))
            sb p gemBal k } := by
  simp only [synchronize_orders, if_neg heth, hcfg]

theorem our_orders_append (addr : ℕ) (l1 l2 : List Order) :
    our_orders addr (l1 ++ l2) = our_orders addr l1 ++ our_orders addr l2 := by
  simp [our_orders]

theorem our_orders_filter (addr : ℕ) (book : List Order) (q : Order → Bool) :
    our_orders addr (book.filter q) = (our_orders addr book).filter q := by
  unfold our_orders
  rw [List.filter_filter, List.filter_filter]
  apply List.filter_congr
  intro o _
  rw [Bool.and_comm]

theorem our_buy_orders_append (l1 l2 : List Order) :
    our_buy_orders (l1 ++ l2) = our_buy_orders l1 ++ our_buy_orders l2 := by
  simp [our_buy_orders]

theorem our_sell_orders_append (l1 l2 : List Order) :
    our_sell_orders (l1 ++ l2) =
      our_sell_orders l1 ++ our_sell_orders l2 := by
  simp [our_sell_orders]

theorem our_buy_orders_filter (ours : List Order) (q : Order → Bool) :
    our_buy_orders (ours.filter q) = (our_buy_orders ours).filter q := by
  unfold our_buy_orders
  rw [List.filter_filter, List.filter_filter]
  apply List.filter_congr
  intro o _
  rw [Bool.and_comm]

theorem our_sell_orders_filter (ours : List Order) (q : Order → Bool) :
    our_sell_orders (ours.filter q) = (our_sell_orders ours).filter q := by
  unfold our_sell_orders
  rw [List.filter_filter, List.filter_filter]
  apply List.filter_congr
  intro o _
  rw [Bool.and_comm]

theorem our_orders_map_placed (addr : ℕ) (pls : List Place) :
    our_orders addr (pls.map (placedOrder addr)) =
      pls.map (placedOrder addr) := by
  rw [our_orders, List.filter_eq_self]
  intro o ho
  obtain ⟨pl, -, rfl⟩ := List.mem_map.mp ho
  simp [placedOrder]

theorem our_buy_orders_map_buy (addr : ℕ) (pls : List Place)
    (h : ∀ pl ∈ pls, pl.have_token = Token.sai ∧
      pl.want_token = Token.gem) :
    our_buy_orders (pls.map (placedOrder addr)) =
      pls.map (placedOrder addr) := by
  rw [our_buy_orders, List.filter_eq_self]
  intro o ho
  obtain ⟨pl, hpl, rfl⟩ := List.mem_map.mp ho
  obtain ⟨h1, h2⟩ := h pl hpl
  simp [placedOrder, h1, h2]

theorem our_buy_orders_map_sell (addr : ℕ) (pls : List Place)
    (h : ∀ pl ∈ pls, pl.have_token = Token.gem ∧
      pl.want_token = Token.sai) :
    our_buy_orders (pls.map (placedOrder addr)) = [] := by
  rw [our_buy_orders, List.filter_eq_nil_iff]
  intro o ho
  obtain ⟨pl, hpl, rfl⟩ := List.mem_map.mp ho
  obtain ⟨h1, h2⟩ := h pl hpl
  simp [placedOrder, h1, h2]

theorem our_sell_orders_map_sell (addr : ℕ) (pls : List Place)
    (h : ∀ pl ∈ pls, pl.have_token = Token.gem ∧
      pl.want_token = Token.sai) :
    our_sell_orders (pls.map (placedOrder addr)) =
      pls.map (placedOrder addr) := by
  rw [our_sell_orders, List.filter_eq_self]
  intro o ho
  obtain ⟨pl, hpl, rfl⟩ := List.mem_map.mp ho
  obtain ⟨h1, h2⟩ := h pl hpl
  simp [placedOrder, h1, h2]

theorem our_sell_orders_map_buy (addr : ℕ) (pls : List Place)
    (h : ∀ pl ∈ pls, pl.have_token = Token.sai ∧
      pl.want_token = Token.gem) :
    our_sell_orders (pls.map (placedOrder addr)) = [] := by
  rw [our_sell_orders, List.filter_eq_nil_iff]
  intro o ho
  obtain ⟨pl, hpl, rfl⟩ := List.mem_map.mp ho
  obtain ⟨h1, h2⟩ := h pl hpl
  simp [placedOrder, h1, h2]

theorem sumHavesTok_append (t : Token) (l1 l2 : List Place) :
    sumHavesTok t (l1 ++ l2) = sumHavesTok t l1 + sumHavesTok t l2 := by
  simp [sumHavesTok, sumHaves]

theorem sumHavesTok_all (t : Token) (l : List Place)
    (h : ∀ pl ∈ l, pl.have_token = t) : sumHavesTok t l = sumHaves l := by
  rw [sumHavesTok]
  congr 1
  rw [List.filter_eq_self]
  intro pl hpl
  simp [h pl hpl]

theorem sumHavesTok_none (t : Token) (l : List Place)
    (h : ∀ pl ∈ l, pl.have_token ≠ t) : sumHavesTok t l = 0 := by
  rw [sumHavesTok]
  have : l.filter (fun pl => decide (pl.have_token = t)) = [] := by
    rw [List.filter_eq_nil_iff]
    intro pl hpl
    simp [h pl hpl]
  rw [this]
  simp [sumHaves]

theorem filter_not_mem_nil (l : List Order) :
    (l.filter fun o => decide (o ∉ ([] : List Order))) = l := by
  rw [List.filter_eq_self]
  intro o _
  simp

theorem excessive_flatMap_nil (s : Side) (p : ℚ) (bands : List Band)
    (sideOrders : List Order)
    (h : ∀ b ∈ bands,
      total_amount (in_band_orders s p sideOrders b) ≤ b.max_amount) :
    (bands.flatMap fun b => b.excessive_orders s sideOrders p) = [] := by
  rw [List.flatMap_eq_nil_iff]
  intro b hb
  rw [Band.excessive_orders, if_neg (not_lt.mpr (h b hb))]

theorem outside_orders_nil (ours : List Order) (buyBands sellBands : List Band)
    (p : ℚ)
    (hbuy : ∀ o ∈ our_buy_orders ours, ∃ b ∈ buyBands,
      b.includes Side.buy o p = true)
    (hsell : ∀ o ∈ our_sell_orders ours, ∃ b ∈ sellBands,
      b.includes Side.sell o p = true) :
    outside_orders ours buyBands sellBands p = [] := by
  rw [outside_orders, List.append_eq_nil]
  constructor <;> rw [List.filter_eq_nil_iff]
  · intro o ho
    obtain ⟨b, hb, hinc⟩ := hbuy o ho
    simp only [Bool.not_eq_true', Bool.not_eq_false]
    exact List.any_eq_true.mpr ⟨b, hb, hinc⟩
  · intro o ho
    obtain ⟨b, hb, hinc⟩ := hsell o ho
    simp only [Bool.not_eq_true', Bool.not_eq_false]
    exact List.any_eq_true.mpr ⟨b, hb, hinc⟩

end MMK

namespace MMK

/-! ### C1: reconciliation is not idempotent in general; it is under
geometric side conditions on the rounded placement prices -/

/-- C1 counterexample: a single buy band with margins 0.001/0.002/0.003,
amounts 50/100/150, dust 5, reference price 100, round_places 0, an empty
book and SAI balance 200.  Pass one places a buy order at the rounded
price 100 (99.8 rounded to 0 decimals), which lies outside the band's own
price range [99.7, 99.9]; the immediate second pass therefore cancels the
freshly placed order, so the second-pass intent set is not empty and
reconciliation is not idempotent as claimed. -/
theorem C1_counterexample :
    (run_twice 1 0 1 [] 100
      [⟨1/1000, 2/1000, 3/1000, 50, 100, 150, 5⟩] [] 200 0 0).cancels ≠
      [] := by
  norm_num [run_twice, synchronize_orders, band_configuration, bands_overlap,
    two_bands_overlap, our_orders, outside_orders, our_buy_orders,
    our_sell_orders, excessive_buy_orders, excessive_sell_orders,
    Band.excessive_orders, in_band_orders, total_amount, top_up_buy_bands,
    top_up_sell_bands, topUpBands, top_up_step, Band.includes, Band.avg_price,
    applyMargin, orderPrice, lowPrice, highPrice, roundTo, roundHalfEven,
    next_book, placedOrder, sumHavesTok, sumHaves, wantAmountOf,
    haveTokenOf, wantTokenOf]
  exact List.cons_ne_nil _ _

/-- C1 amended: running the full reconciliation twice in succession with no
external change produces an empty second-pass intent set, provided the ETH
guard does not fire, the reference price is positive, book amounts are
non-negative, every band satisfies the construction amount invariant, the
same-side band price ranges are pairwise strictly disjoint, and every
band's rounded placement price `round(avg_price(p), round_places)` still
lies inside that band's own price range (the counterexample shows the
statement fails without the last condition). -/
theorem C1_amended_idempotent (ethBal minEth : ℚ) (addr : ℕ)
    (book : List Order) (p : ℚ) (buyCfg sellCfg : List Band)
    (saiBal gemBal : ℚ) (k : ℕ)
    (heth : minEth ≤ ethBal) (hp : 0 < p)
    (hbook : ∀ o ∈ book, 0 ≤ o.sell_how_much)
    (hAbuy : ∀ b ∈ buyCfg, bandAmountsOK b)
    (hAsell : ∀ b ∈ sellCfg, bandAmountsOK b)
    (hGbuy : ∀ b ∈ buyCfg, bandGeomOK Side.buy k p b)
    (hGsell : ∀ b ∈ sellCfg, bandGeomOK Side.sell k p b)
    (hDbuy : bandsDisjoint Side.buy p buyCfg)
    (hDsell : bandsDisjoint Side.sell p sellCfg) :
    run_twice ethBal minEth addr book p buyCfg sellCfg saiBal gemBal k =
      { terminate := false, cancels := [], places := [] } := by
  have heth' : ¬ ethBal < minEth := not_lt.mpr heth
  have hovb : bands_overlap buyCfg = false :=
    bands_overlap_eq_false_of_disjoint Side.buy hp buyCfg hDbuy
  have hovs : bands_overlap sellCfg = false :=
    bands_overlap_eq_false_of_disjoint Side.sell hp sellCfg hDsell
  have hcfg : band_configuration buyCfg sellCfg = (false, buyCfg, sellCfg) := by
    rw [band_configuration, hovb, hovs]
    simp
  simp only [run_twice]
  rw [synchronize_orders_some ethBal minEth addr book p buyCfg sellCfg saiBal
    gemBal k heth' false buyCfg sellCfg hcfg]
  simp only [next_book]
  set ours := our_orders addr book with hours
  set cex := excessive_buy_orders ours buyCfg p ++
    excessive_sell_orders ours sellCfg p ++
    outside_orders ours buyCfg sellCfg p with hcex
  set ours2 := ours.filter fun o => decide (o ∉ cex) with hours2
  set PB := top_up_buy_bands ours2 buyCfg p saiBal k with hPB
  set PS := top_up_sell_bands ours2 sellCfg p gemBal k with hPS
  rw [synchronize_orders_some ethBal minEth addr _ p buyCfg sellCfg _ _ k
    heth' false buyCfg sellCfg hcfg]
  -- basic facts about the first pass
  have hnnB : ∀ o ∈ our_buy_orders ours, 0 ≤ o.sell_how_much := by
    intro o ho
    have h1 : o ∈ ours := (List.mem_filter.mp ho).1
    rw [hours, our_orders] at h1
    exact hbook o (List.mem_filter.mp h1).1
  have hnnS : ∀ o ∈ our_sell_orders ours, 0 ≤ o.sell_how_much := by
    intro o ho
    have h1 : o ∈ ours := (List.mem_filter.mp ho).1
    rw [hours, our_orders] at h1
    exact hbook o (List.mem_filter.mp h1).1
  have htokB : ∀ pl ∈ PB, pl.have_token = Token.sai ∧
      pl.want_token = Token.gem := by
    intro pl hpl
    rw [hPB, top_up_buy_bands] at hpl
    simpa [haveTokenOf, wantTokenOf] using
      topUpBands_tokens Side.buy k p (our_buy_orders ours2) buyCfg saiBal
        pl hpl
  have htokS : ∀ pl ∈ PS, pl.have_token = Token.gem ∧
      pl.want_token = Token.sai := by
    intro pl hpl
    rw [hPS, top_up_sell_bands] at hpl
    simpa [haveTokenOf, wantTokenOf] using
      topUpBands_tokens Side.sell k p (our_sell_orders ours2) sellCfg gemBal
        pl hpl
  have hbuy3 : our_buy_orders (ours2 ++ (PB ++ PS).map (placedOrder addr)) =
      our_buy_orders ours2 ++ PB.map (placedOrder addr) := by
    rw [List.map_append, our_buy_orders_append, our_buy_orders_append,
      our_buy_orders_map_buy addr PB htokB,
      our_buy_orders_map_sell addr PS htokS, List.append_nil]
  have hsell3 : our_sell_orders (ours2 ++ (PB ++ PS).map (placedOrder addr)) =
      our_sell_orders ours2 ++ PS.map (placedOrder addr) := by
    rw [List.map_append, our_sell_orders_append, our_sell_orders_append,
      our_sell_orders_map_buy addr PB htokB,
      our_sell_orders_map_sell addr PS htokS, List.nil_append]
  have hours3 : our_orders addr
      ((book.filter fun o => decide (o ∉ cex)) ++
        (PB ++ PS).map (placedOrder addr)) =
      ours2 ++ (PB ++ PS).map (placedOrder addr) := by
    rw [our_orders_append, our_orders_filter, our_orders_map_placed, ← hours,
      ← hours2]
  have hB2 : our_buy_orders ours2 =
      (our_buy_orders ours).filter fun o => decide (o ∉ cex) := by
    rw [hours2, our_buy_orders_filter]
  have hS2 : our_sell_orders ours2 =
      (our_sell_orders ours).filter fun o => decide (o ∉ cex) := by
    rw [hours2, our_sell_orders_filter]
  -- phase-one cancellation caps the surviving totals
  have hcapB : ∀ b ∈ buyCfg, total_amount
      (in_band_orders Side.buy p (our_buy_orders ours2) b) ≤
      b.max_amount := by
    intro b hb
    rw [hB2]
    apply total_after_cancel_le_max Side.buy p b (our_buy_orders ours) cex
      hnnB
    · intro o ho
      rw [hcex]
      apply List.mem_append_left
      apply List.mem_append_left
      exact List.mem_flatMap.mpr ⟨b, hb, ho⟩
    · obtain ⟨h0, h1, h2⟩ := hAbuy b hb
      linarith
  have hcapS : ∀ b ∈ sellCfg, total_amount
      (in_band_orders Side.sell p (our_sell_orders ours2) b) ≤
      b.max_amount := by
    intro b hb
    rw [hS2]
    apply total_after_cancel_le_max Side.sell p b (our_sell_orders ours) cex
      hnnS
    · intro o ho
      rw [hcex]
      apply List.mem_append_left
      apply List.mem_append_right
      exact List.mem_flatMap.mpr ⟨b, hb, ho⟩
    · obtain ⟨h0, h1, h2⟩ := hAsell b hb
      linarith
  -- the second pass marks no excessive orders
  have hexcB2 : excessive_buy_orders
      (ours2 ++ (PB ++ PS).map (placedOrder addr)) buyCfg p = [] := by
    rw [excessive_buy_orders]
    apply excessive_flatMap_nil
    intro b hb
    rw [hbuy3, hPB, top_up_buy_bands]
    have h1 := total_with_placed_le Side.buy k p addr (our_buy_orders ours2)
      buyCfg saiBal hGbuy hDbuy b hb
    exact le_trans h1 (max_le (hcapB b hb) (hAbuy b hb).2.2)
  have hexcS2 : excessive_sell_orders
      (ours2 ++ (PB ++ PS).map (placedOrder addr)) sellCfg p = [] := by
    rw [excessive_sell_orders]
    apply excessive_flatMap_nil
    intro b hb
    rw [hsell3, hPS, top_up_sell_bands]
    have h1 := total_with_placed_le Side.sell k p addr
      (our_sell_orders ours2) sellCfg gemBal hGsell hDsell b hb
    exact le_trans h1 (max_le (hcapS b hb) (hAsell b hb).2.2)
  -- the second pass marks no outside orders
  have hout2 : outside_orders (ours2 ++ (PB ++ PS).map (placedOrder addr))
      buyCfg sellCfg p = [] := by
    apply outside_orders_nil
    · rw [hbuy3]
      intro o ho
      rcases List.mem_append.mp ho with ho | ho
      · have hoc : o ∉ cex := by
          rw [hB2] at ho
          have := (List.mem_filter.mp ho).2
          simpa using this
        have hob : o ∈ our_buy_orders ours := by
          rw [hB2] at ho
          exact (List.mem_filter.mp ho).1
        by_contra hno
        push_neg at hno
        apply hoc
        rw [hcex]
        apply List.mem_append_right
        rw [outside_orders]
        apply List.mem_append_left
        rw [List.mem_filter]
        refine ⟨hob, ?_⟩
        simp only [Bool.not_eq_true']
        rw [List.any_eq_false]
        intro b hb
        have hnb := hno b hb
        simpa using hnb
      · obtain ⟨pl, hpl, rfl⟩ := List.mem_map.mp ho
        rw [hPB, top_up_buy_bands] at hpl
        obtain ⟨b, hb, -, -, -, -, hprice⟩ :=
          topUpBands_places_spec Side.buy k p addr (our_buy_orders ours2)
            buyCfg saiBal hGbuy pl hpl
        refine ⟨b, hb, ?_⟩
        rw [includes_eq_true_iff, hprice]
        obtain ⟨-, h2, h3⟩ := hGbuy b hb
        exact ⟨h2, h3⟩
    · rw [hsell3]
      intro o ho
      rcases List.mem_append.mp ho with ho | ho
      · have hoc : o ∉ cex := by
          rw [hS2] at ho
          have := (List.mem_filter.mp ho).2
          simpa using this
        have hob : o ∈ our_sell_orders ours := by
          rw [hS2] at ho
          exact (List.mem_filter.mp ho).1
        by_contra hno
        push_neg at hno
        apply hoc
        rw [hcex]
        apply List.mem_append_right
        rw [outside_orders]
        apply List.mem_append_right
        rw [List.mem_filter]
        refine ⟨hob, ?_⟩
        simp only [Bool.not_eq_true']
        rw [List.any_eq_false]
        intro b hb
        have hnb := hno b hb
        simpa using hnb
      · obtain ⟨pl, hpl, rfl⟩ := List.mem_map.mp ho
        rw [hPS, top_up_sell_bands] at hpl
        obtain ⟨b, hb, -, -, -, -, hprice⟩ :=
          topUpBands_places_spec Side.sell k p addr (our_sell_orders ours2)
            sellCfg gemBal hGsell pl hpl
        refine ⟨b, hb, ?_⟩
        rw [includes_eq_true_iff, hprice]
        obtain ⟨-, h2, h3⟩ := hGsell b hb
        exact ⟨h2, h3⟩
  -- escrowed balances of the second pass equal the pass-one final balances
  have hrposB : ∀ b ∈ buyCfg, 0 < roundTo k (b.avg_price Side.buy p) := by
    intro b hb
    obtain ⟨h1, h2, -⟩ := hGbuy b hb
    linarith
  have hrposS : ∀ b ∈ sellCfg, 0 < roundTo k (b.avg_price Side.sell p) := by
    intro b hb
    obtain ⟨h1, h2, -⟩ := hGsell b hb
    linarith
  have hsai2 : saiBal - sumHavesTok Token.sai (PB ++ PS) =
      (topUpBands Side.buy k p (our_buy_orders ours2) buyCfg saiBal).2 := by
    rw [sumHavesTok_append,
      sumHavesTok_all Token.sai PB (fun pl h => (htokB pl h).1),
      sumHavesTok_none Token.sai PS (fun pl h => by
        rw [(htokS pl h).1]; simp),
      hPB, top_up_buy_bands,
      topUpBands_sumHaves_eq Side.buy k p (our_buy_orders ours2) buyCfg
        saiBal hrposB]
    ring
  have hgem2 : gemBal - sumHavesTok Token.gem (PB ++ PS) =
      (topUpBands Side.sell k p (our_sell_orders ours2) sellCfg gemBal).2 := by
    rw [sumHavesTok_append,
      sumHavesTok_none Token.gem PB (fun pl h => by
        rw [(htokB pl h).1]; simp),
      sumHavesTok_all Token.gem PS (fun pl h => (htokS pl h).1),
      hPS, top_up_sell_bands,
      topUpBands_sumHaves_eq Side.sell k p (our_sell_orders ours2) sellCfg
        gemBal hrposS]
    ring
  -- the second top-up passes place nothing
  have hplB : top_up_buy_bands (ours2 ++ (PB ++ PS).map (placedOrder addr))
      buyCfg p (saiBal - sumHavesTok Token.sai (PB ++ PS)) k = [] := by
    rw [top_up_buy_bands, hbuy3, hsai2, hPB, top_up_buy_bands]
    exact topUpBands_second_nil Side.buy k p addr buyCfg
      (our_buy_orders ours2) saiBal _
      (fun b hb => (hAbuy b hb).2.1) hGbuy hDbuy (le_refl _)
  have hplS : top_up_sell_bands (ours2 ++ (PB ++ PS).map (placedOrder addr))
      sellCfg p (gemBal - sumHavesTok Token.gem (PB ++ PS)) k = [] := by
    rw [top_up_sell_bands, hsell3, hgem2, hPS, top_up_sell_bands]
    exact topUpBands_second_nil Side.sell k p addr sellCfg
      (our_sell_orders ours2) gemBal _
      (fun b hb => (hAsell b hb).2.1) hGsell hDsell (le_refl _)
  -- assemble the empty second-pass result
  rw [hours3, hexcB2, hexcS2, hout2]
  simp only [List.append_nil, List.nil_append, filter_not_mem_nil]
  rw [hplB, hplS]
  simp

end MMK

namespace MMK

/-- Witness for C1 amended: one buy band with margins 0.0001/0.00012/0.0002
at price 100 and round_places 2; its rounded placement price 99.99 lies
inside the band range [99.98, 99.99], so two consecutive ticks end with an
empty second-pass intent set. -/
theorem C1_amended_idempotent_witness :
    (0 : ℚ) ≤ 1 ∧ (0 : ℚ) < 100 ∧
    (∀ b ∈ [(⟨1/10000, 12/100000, 2/10000, 50, 100, 150, 5⟩ : Band)],
      bandGeomOK Side.buy 2 100 b) ∧
    run_twice 1 0 1 [] 100
      [⟨1/10000, 12/100000, 2/10000, 50, 100, 150, 5⟩] [] 200 0 2 =
      { terminate := false, cancels := [], places := [] } := by
  have hgeom : ∀ b ∈ [(⟨1/10000, 12/100000, 2/10000, 50, 100, 150,
      5⟩ : Band)], bandGeomOK Side.buy 2 100 b := by
    intro b hb
    rw [List.mem_singleton] at hb
    subst hb
    norm_num [bandGeomOK, lowPrice, highPrice, applyMargin, Band.avg_price,
      roundTo, roundHalfEven]
  refine ⟨by norm_num, by norm_num, hgeom, ?_⟩
  exact C1_amended_idempotent 1 0 1 [] 100
    [⟨1/10000, 12/100000, 2/10000, 50, 100, 150, 5⟩] [] 200 0 2
    (by norm_num) (by norm_num) (by simp)
    (by
      intro b hb
      rw [List.mem_singleton] at hb
      subst hb
      norm_num [bandAmountsOK])
    (by simp)
    hgeom
    (by simp)
    (by simp [bandsDisjoint])
    (by simp [bandsDisjoint])

end MMK
